import Mathlib

/-!
Verification development for the `powerman/rpc-codec` JSON-RPC 2.0 codec
library.  The Go sources are shallowly embedded: JSON values become an
inductive type, the relevant behaviour of Go's `encoding/json` decoder is
modelled as a total parser with the same error classification
(`io.EOF` / `io.ErrUnexpectedEOF` / `*json.SyntaxError`), and the codec
methods become pure functions over explicit codec states.  Machine
integers (`uint64` sequence numbers) are `Nat` with explicit `% 2^64`.
-/

namespace Jsonrpc2

/-- Model of a JSON value (the result of decoding one value with
`encoding/json`).  Numbers keep their literal so that Go's
`strconv`-based integer conversions can be modelled exactly. -/
inductive Json where
  | null
  | bool (b : Bool)
  | num (lex : String)
  | str (s : String)
  | arr (elems : List Json)
  | obj (members : List (String × Json))

/-- Whitespace accepted by Go's JSON scanner (`isSpace`). -/
def isWs (c : Char) : Bool :=
  c = ' ' || c = '\t' || c = '\n' || c = '\r'

/-- Drop leading JSON whitespace. -/
def skipWs : List Char → List Char
  | [] => []
  | c :: rest => if isWs c then skipWs rest else c :: rest

/-- Error classification of Go's `json.Decoder.Decode`: on end of input in
the middle of a value the scanner is fed a space; if that is a scan error
the decoder reports a `*json.SyntaxError`, otherwise `io.ErrUnexpectedEOF`. -/
inductive PErr where
  | unexpEOF
  | syntaxErr
deriving DecidableEq

/-- Hex digit value, for `\uXXXX` escapes. -/
def hexVal (c : Char) : Option Nat :=
  if '0' ≤ c ∧ c ≤ '9' then some (c.toNat - '0'.toNat)
  else if 'a' ≤ c ∧ c ≤ 'f' then some (c.toNat - 'a'.toNat + 10)
  else if 'A' ≤ c ∧ c ≤ 'F' then some (c.toNat - 'A'.toNat + 10)
  else none

/-- Scan the body of a JSON string literal (the opening quote already
consumed).  Returns the decoded characters and the input after the closing
quote.  End of input inside the string is `unexpEOF` (a space is a legal
string character), while end of input directly after a backslash or inside
a `\uXXXX` escape is a syntax error, as in Go's scanner.  Surrogate-pair
combination is not modelled (a lone escape yields one character). -/
def pushChar (c : Char) : Except PErr (List Char × List Char) → Except PErr (List Char × List Char)
  | .ok (cs, r') => .ok (c :: cs, r')
  | .error err => .error err

/-- Decode a single-character escape (the character after the backslash),
`none` for an invalid one. -/
def escChar (e : Char) : Option Char :=
  if e = '"' then some '"'
  else if e = '\\' then some '\\'
  else if e = '/' then some '/'
  else if e = 'b' then some (Char.ofNat 8)
  else if e = 'f' then some (Char.ofNat 12)
  else if e = 'n' then some '\n'
  else if e = 'r' then some '\r'
  else if e = 't' then some '\t'
  else none

def parseStrBody : List Char → Except PErr (List Char × List Char)
  | [] => .error .unexpEOF
  | c :: rest =>
    if c = '"' then .ok ([], rest)
    else if c = '\\' then
      match rest with
      | [] => .error .syntaxErr
      | e :: rest' =>
        if e = 'u' then
          match rest' with
          | h1 :: h2 :: h3 :: h4 :: r =>
            match hexVal h1, hexVal h2, hexVal h3, hexVal h4 with
            | some a, some b, some c', some d =>
              pushChar (Char.ofNat (((a * 16 + b) * 16 + c') * 16 + d)) (parseStrBody r)
            | _, _, _, _ => .error .syntaxErr
          | _ => .error .syntaxErr
        else
          match escChar e with
          | some c' => pushChar c' (parseStrBody rest')
          | none => .error .syntaxErr
    else if c.toNat < 32 then .error .syntaxErr
    else pushChar c (parseStrBody rest)

/-- Take the maximal run of decimal digits. -/
def spanDigits : List Char → List Char × List Char
  | [] => ([], [])
  | c :: rest =>
    if c.isDigit then
      let (ds, r) := spanDigits rest
      (c :: ds, r)
    else ([], c :: rest)

/-- Scan an optional exponent part (`[eE][+-]?digits`); anything not
starting the exponent ends the number. -/
def scanExp (lex2 : List Char) (s2 : List Char) : Except PErr (List Char × List Char) :=
  match s2 with
  | [] => .ok (lex2, [])
  | c :: s3 =>
    if c = 'e' ∨ c = 'E' then
      let (sign, s4) :=
        match s3 with
        | [] => ([], ([] : List Char))
        | c2 :: s4 =>
          if c2 = '+' ∨ c2 = '-' then ([c2], s4) else ([], c2 :: s4)
      match spanDigits s4 with
      | ([], _) => .error .syntaxErr
      | (ds, s5) => .ok (lex2 ++ c :: sign ++ ds, s5)
    else .ok (lex2, c :: s3)

/-- Scan the fraction/exponent part of a number, `lex` being the digits
scanned so far. -/
def scanNumTail (lex : List Char) (s : List Char) : Except PErr (List Char × List Char) :=
  match s with
  | [] => .ok (lex, [])
  | c :: s2 =>
    if c = '.' then
      match spanDigits s2 with
      | ([], _) => .error .syntaxErr
      | (ds, s3) => scanExp (lex ++ '.' :: ds) s3
    else scanExp lex (c :: s2)

/-- Scan the digits after an optional leading minus. -/
def scanNumStart (neg : List Char) (s1 : List Char) : Except PErr (List Char × List Char) :=
  match s1 with
  | [] => .error .syntaxErr
  | c :: s2 =>
    if c = '0' then scanNumTail (neg ++ ['0']) s2
    else if c.isDigit then
      let (ds, s3) := spanDigits (c :: s2)
      scanNumTail (neg ++ ds) s3
    else .error .syntaxErr

/-- Scan a JSON number starting at a `-` or digit.  Following Go's
scanner: a lone `-`, a missing digit after `.` or an empty exponent are
syntax errors (feeding the virtual space there is a scan error); after a
complete integer part the number simply ends (`01` is `0` followed by a
separate token). -/
def scanNumber (s : List Char) : Except PErr (List Char × List Char) :=
  match s with
  | [] => .error .syntaxErr
  | c :: rest =>
    if c = '-' then scanNumStart ['-'] rest
    else scanNumStart [] (c :: rest)

/-- Match the tail of a literal (`rue`, `alse`, `ull`).  A mismatch or end
of input inside a literal is a syntax error in Go's scanner (a space is
not a legal literal character). -/
def matchLit : List Char → List Char → Except PErr (List Char)
  | [], s => .ok s
  | _ :: _, [] => .error .syntaxErr
  | p :: ps, c :: rest => if p = c then matchLit ps rest else .error .syntaxErr

mutual

/-- Parse one JSON value.  `fuel` bounds the recursion; callers supply
`2 * length + 4`, which can never be exhausted (each two recursive steps
consume at least one character), so the `fuel = 0` branch is dead. -/
def parseValue : Nat → List Char → Except PErr (Json × List Char)
  | 0, _ => .error .syntaxErr
  | fuel + 1, s =>
    match s with
    | [] => .error .unexpEOF
    | c :: rest =>
      if c = '"' then
        match parseStrBody rest with
        | .ok (cs, r) => .ok (.str ⟨cs⟩, r)
        | .error e => .error e
      else if c = 't' then
        match matchLit ['r', 'u', 'e'] rest with
        | .ok r => .ok (.bool true, r)
        | .error e => .error e
      else if c = 'f' then
        match matchLit ['a', 'l', 's', 'e'] rest with
        | .ok r => .ok (.bool false, r)
        | .error e => .error e
      else if c = 'n' then
        match matchLit ['u', 'l', 'l'] rest with
        | .ok r => .ok (.null, r)
        | .error e => .error e
      else if c = '-' ∨ c.isDigit then
        match scanNumber (c :: rest) with
        | .ok (lex, r) => .ok (.num ⟨lex⟩, r)
        | .error e => .error e
      else if c = '[' then
        match skipWs rest with
        | ']' :: r2 => .ok (.arr [], r2)
        | r1 =>
          match parseElems fuel r1 with
          | .ok (vs, r) => .ok (.arr vs, r)
          | .error e => .error e
      else if c = '\x7b' then
        match skipWs rest with
        | '\x7d' :: r2 => .ok (.obj [], r2)
        | r1 =>
          match parseMembers fuel r1 with
          | .ok (kvs, r) => .ok (.obj kvs, r)
          | .error e => .error e
      else .error .syntaxErr

/-- Parse `value (ws ',' ws value)* ws ']'` (a non-empty array body). -/
def parseElems : Nat → List Char → Except PErr (List Json × List Char)
  | 0, _ => .error .syntaxErr
  | fuel + 1, s =>
    match parseValue fuel s with
    | .error e => .error e
    | .ok (v, r) =>
      match skipWs r with
      | [] => .error .unexpEOF
      | ',' :: r2 =>
        match parseElems fuel (skipWs r2) with
        | .ok (vs, r3) => .ok (v :: vs, r3)
        | .error e => .error e
      | ']' :: r2 => .ok ([v], r2)
      | _ => .error .syntaxErr

/-- Parse `string ws ':' ws value (ws ',' ws …)* ws closing-brace`
(a non-empty object body). -/
def parseMembers : Nat → List Char → Except PErr (List (String × Json) × List Char)
  | 0, _ => .error .syntaxErr
  | fuel + 1, s =>
    match s with
    | [] => .error .unexpEOF
    | '"' :: r =>
      match parseStrBody r with
      | .error e => .error e
      | .ok (kcs, r1) =>
        match skipWs r1 with
        | [] => .error .unexpEOF
        | ':' :: r2 =>
          match parseValue fuel (skipWs r2) with
          | .error e => .error e
          | .ok (v, r3) =>
            match skipWs r3 with
            | [] => .error .unexpEOF
            | ',' :: r4 =>
              match parseMembers fuel (skipWs r4) with
              | .ok (kvs, r5) => .ok ((⟨kcs⟩, v) :: kvs, r5)
              | .error e => .error e
            | '\x7d' :: r4 => .ok ([(⟨kcs⟩, v)], r4)
            | _ => .error .syntaxErr
        | _ => .error .syntaxErr
    | _ => .error .syntaxErr

end

/-- Outcome of one `json.Decoder.Decode` call on the remaining stream. -/
inductive DecodeResult where
  | eof
  | unexpEOF
  | syntaxErr
  | ok (v : Json) (raw : List Char) (rest : List Char)

/-- Model of `json.Decoder.Decode(&raw)`: skip whitespace; end of input
there is a clean `io.EOF`; otherwise parse one value, keeping its raw
characters (what the `json.RawMessage` receives) and the remaining
stream. -/
def decodeOne (s : List Char) : DecodeResult :=
  match skipWs s with
  | [] => .eof
  | c :: rest =>
    match parseValue (2 * s.length + 4) (c :: rest) with
    | .ok (v, r) => .ok v ((c :: rest).take ((c :: rest).length - r.length)) r
    | .error .unexpEOF => .unexpEOF
    | .error .syntaxErr => .syntaxErr

/-! Association-list helpers.  Go maps are modelled as association lists
whose operations (`insertN` = `m[k] = v`, `eraseN` = `delete(m, k)`,
`lookupN` = `m[k]`) keep keys unique. -/

/-- Value of a `Nat`-keyed Go map at `k` (`v, ok := m[k]`). -/
def lookupN {α : Type} : List (Nat × α) → Nat → Option α
  | [], _ => none
  | (k, v) :: rest, key => if k = key then some v else lookupN rest key

/-- Model of `delete(m, k)`. -/
def eraseN {α : Type} : List (Nat × α) → Nat → List (Nat × α)
  | [], _ => []
  | (k, v) :: rest, key => if k = key then eraseN rest key else (k, v) :: eraseN rest key

/-- Model of `m[k] = v`. -/
def insertN {α : Type} (m : List (Nat × α)) (key : Nat) (v : α) : List (Nat × α) :=
  (key, v) :: eraseN m key

/-- Number of entries with key `k` (1 or 0 for a real map). -/
def countN {α : Type} (m : List (Nat × α)) (key : Nat) : Nat :=
  (m.filter (fun kv => kv.1 = key)).length

/-- Value of a string-keyed JSON object map. -/
def mapGetS : List (String × Json) → String → Option Json
  | [], _ => none
  | (k, v) :: rest, key => if k = key then some v else mapGetS rest key

/-- Model of `m[k] = v` for the string-keyed maps built by
`json.Unmarshal(raw, &m)` (later duplicate keys overwrite earlier ones). -/
def updateS : List (String × Json) → String → Json → List (String × Json)
  | [], key, v => [(key, v)]
  | (k, w) :: rest, key, v =>
    if k = key then (k, v) :: rest else (k, w) :: updateS rest key v

/-- The map `json.Unmarshal` builds from an object's members. -/
def mapOf (kvs : List (String × Json)) : List (String × Json) :=
  kvs.foldl (fun m kv => updateS m kv.1 kv.2) []

/-- Model of `_, ok := m[k]`. -/
def hasKey (m : List (String × Json)) (key : String) : Bool :=
  (mapGetS m key).isSome

/-- Model of `m[k] == nil` for a `map[string]*json.RawMessage`: true when
the key is absent or its value was JSON `null` (unmarshalled to a nil
pointer). -/
def nilGet (m : List (String × Json)) (key : String) : Bool :=
  match mapGetS m key with
  | none => true
  | some .null => true
  | some _ => false

/-! Error model (`errors.go`). -/

/-- Values a Go `interface{}` carried in `Error.Data` can hold, as far as
`json.Marshal` is concerned: something that marshals to a JSON value, or
something unsupported (a channel, function, cyclic value, …) that makes
`json.Marshal` fail; `typeName` is its type's name as printed by
`json.UnsupportedTypeError`. -/
inductive ErrData where
  | val (j : Json)
  | unsupported (typeName : String)

/-- JSON-RPC 2.0 "Error object" (`type Error struct`). -/
structure Error where
  code : Int
  message : String
  data : Option ErrData

/-- Model of `NewError`. -/
def NewError (code : Int) (message : String) : Error :=
  { code := code, message := message, data := none }

def errParse : Error := NewError (-32700) "Parse error"
def errRequest : Error := NewError (-32600) "Invalid request"
def errMethod : Error := NewError (-32601) "Method not found"
def errParams : Error := NewError (-32602) "Invalid params"
def errInternal : Error := NewError (-32603) "Internal error"
def errServer : Error := NewError (-32000) "Server error"
def errServerError : Error := NewError (-32001) "jsonrpc2.Error: json.Marshal failed"

/-- Boolean string-prefix test on character lists. -/
def startsWithL : List Char → List Char → Bool
  | [], _ => true
  | _ :: _, [] => false
  | p :: ps, c :: cs => p = c && startsWithL ps cs

/-- Model of `newError`: auto-detect the code from the host framework's
error message. -/
def newError (message : String) : Error :=
  if startsWithL "rpc: service/method request ill-formed".toList message.toList then
    NewError errMethod.code message
  else if startsWithL "rpc: can't find service".toList message.toList then
    NewError errMethod.code message
  else if startsWithL "rpc: can't find method".toList message.toList then
    NewError errMethod.code message
  else
    NewError errServer.code message

/-! Model of `json.Marshal` on the `Error` struct.  Go's encoder escapes
quotes, backslashes, control characters and (HTML escaping being on by
default) `<`, `>`, `&`, U+2028 and U+2029. -/

/-- Lower-case hex digit. -/
def hexDigitChar (n : Nat) : Char :=
  if n < 10 then Char.ofNat ('0'.toNat + n) else Char.ofNat ('a'.toNat + (n - 10))

/-- Escape one character the way Go's JSON encoder does. -/
def escapeChar (c : Char) : List Char :=
  if c = '"' then ['\\', '"']
  else if c = '\\' then ['\\', '\\']
  else if c = '\n' then ['\\', 'n']
  else if c = '\r' then ['\\', 'r']
  else if c = '\t' then ['\\', 't']
  else if c.toNat < 32 ∨ c = '<' ∨ c = '>' ∨ c = '&' then
    ['\\', 'u', '0', '0', hexDigitChar (c.toNat / 16), hexDigitChar (c.toNat % 16)]
  else if c.toNat = 8232 ∨ c.toNat = 8233 then
    ['\\', 'u', '2', '0', '2', hexDigitChar (c.toNat % 16)]
  else [c]

def escapeStr (s : List Char) : List Char :=
  s.foldr (fun c acc => escapeChar c ++ acc) []

/-- Model of `json.Marshal` on a Go string (always succeeds). -/
def goQuote (s : String) : String :=
  ⟨'"' :: (escapeStr s.toList ++ ['"'])⟩

/-- Decimal digits of a natural number (fuelled division recursion; the
fuel bounds the digit count). -/
def natDecGo : Nat → Nat → List Char
  | 0, _ => []
  | f + 1, n =>
    if n < 10 then [Char.ofNat ('0'.toNat + n)]
    else natDecGo f (n / 10) ++ [Char.ofNat ('0'.toNat + n % 10)]

/-- Model of `%d` on a non-negative integer.  24 digits of fuel cover
every value a 64-bit Go integer can take. -/
def natDec (n : Nat) : String := ⟨natDecGo 24 n⟩

/-- Model of `%d` on a Go int / of `json.Marshal` on an int. -/
def intDec : Int → String
  | .ofNat n => natDec n
  | .negSucc n => "-" ++ natDec (n + 1)

mutual

/-- Model of `json.Marshal` on a JSON-representable value (numbers keep
their literal). -/
def serializeJson : Json → String
  | .null => "null"
  | .bool b => if b then "true" else "false"
  | .num lex => lex
  | .str s => goQuote s
  | .arr es => "[" ++ serializeList es ++ "]"
  | .obj ms => "\x7b" ++ serializeMembers ms ++ "\x7d"

def serializeList : List Json → String
  | [] => ""
  | [v] => serializeJson v
  | v :: rest => serializeJson v ++ "," ++ serializeList rest

def serializeMembers : List (String × Json) → String
  | [] => ""
  | [(k, v)] => goQuote k ++ ":" ++ serializeJson v
  | (k, v) :: rest => goQuote k ++ ":" ++ serializeJson v ++ "," ++ serializeMembers rest

end

/-- Model of `json.Marshal` on `Error.Data`. -/
def marshalErrData : ErrData → Option String
  | .val j => some (serializeJson j)
  | .unsupported _ => none

/-- Model of `json.Marshal` on the whole `Error` struct.
`Data` has `omitempty`: a nil interface is omitted. -/
def marshalError (e : Error) : Option String :=
  match e.data with
  | none =>
    some ("\x7b\"code\":" ++ intDec e.code ++ ",\"message\":" ++ goQuote e.message ++ "\x7d")
  | some d =>
    match marshalErrData d with
    | some ds =>
      some ("\x7b\"code\":" ++ intDec e.code ++ ",\"message\":" ++ goQuote e.message ++
            ",\"data\":" ++ ds ++ "\x7d")
    | none => none

/-- The `err.Error()` string of the `json.Marshal` failure
(`json: unsupported type: <type>`). -/
def marshalFailMessage (e : Error) : String :=
  match e.data with
  | some (.unsupported t) => "json: unsupported type: " ++ t
  | _ => ""

/-- Model of the `Error() string` method: the JSON representation of the
error, falling back to a hand-built `-32001` object when `json.Marshal`
fails.  (The source's innermost fallback — marshalling of the failure
message itself failing — is dead code, since `json.Marshal` of a Go
string never fails; marshalling a string is therefore modelled as
total by `goQuote`.) -/
def Error.Error (e : Error) : String :=
  match marshalError e with
  | some buf => buf
  | none =>
    "\x7b\"code\":" ++ intDec errServerError.code ++ ",\"message\":" ++
      goQuote (marshalFailMessage e) ++ "\x7d"

/-! Client codec (`client.go`, newer variant with notification support). -/

/-- The `reflect.Kind`-level structure of a Go value passed as `params`:
exactly the information `WriteRequest`'s type switch inspects. -/
inductive GoVal where
  | mapV (keyIsString : Bool) (isNil : Bool)
  | sliceV (isNil : Bool)
  | arrayV
  | structV
  | ptrV (elem : GoVal)
  | boolV
  | intV
  | float64V
  | stringV
  | chanV
  | funcV
deriving DecidableEq

/-- Model of `reflect.Kind.String()` for the kinds above. -/
def kindString : GoVal → String
  | .mapV _ _ => "map"
  | .sliceV _ => "slice"
  | .arrayV => "array"
  | .structV => "struct"
  | .ptrV _ => "ptr"
  | .boolV => "bool"
  | .intV => "int"
  | .float64V => "float64"
  | .stringV => "string"
  | .chanV => "chan"
  | .funcV => "func"

/-- The parameter-normalisation type switch at the top of
`clientCodec.WriteRequest`: nil string-keyed maps and nil slices (or
pointers to them) become absent params; maps, slices, arrays, structs and
pointers to these pass through; anything else is rejected with
`-32603 unsupported param type`. -/
def checkParam : Option GoVal → Except Error (Option GoVal)
  | none => .ok none
  | some param =>
    match param with
    | .mapV keyIsString isNil =>
      if keyIsString && isNil then .ok none else .ok (some param)
    | .sliceV isNil => if isNil then .ok none else .ok (some param)
    | .arrayV => .ok (some param)
    | .structV => .ok (some param)
    | .ptrV elem =>
      match elem with
      | .mapV keyIsString isNil =>
        if keyIsString && isNil then .ok none else .ok (some param)
      | .sliceV isNil => if isNil then .ok none else .ok (some param)
      | .arrayV => .ok (some param)
      | .structV => .ok (some param)
      | k => .error (NewError errInternal.code ("unsupported param type: Ptr to " ++ kindString k))
    | k => .error (NewError errInternal.code ("unsupported param type: " ++ kindString k))

/-- `const seqNotify = math.MaxUint64`. -/
def seqNotify : Nat := 2 ^ 64 - 1

/-- Client codec state: the pending map from request id to method name. -/
structure clientCodec where
  pending : List (Nat × String)

/-- The encoded form of `clientRequest` (`Id *uint64` with `omitempty`:
absent for notifications). -/
structure clientRequest where
  Version : String
  Method : String
  Params : Option GoVal
  Id : Option Nat

/-- Model of `clientCodec.WriteRequest`: normalise params, register the
pending entry and build the request that is handed to the encoder (for a
notification — the `seqNotify` sentinel — no pending entry and no id). -/
def clientCodec.WriteRequest (c : clientCodec) (seq : Nat) (serviceMethod : String)
    (param : Option GoVal) : Except Error (clientCodec × clientRequest) :=
  match checkParam param with
  | .error e => .error e
  | .ok param' =>
    let (c', id?) :=
      if seq ≠ seqNotify then
        ({ pending := insertN c.pending seq serviceMethod }, some seq)
      else (c, none)
    .ok (c', { Version := "2.0", Method := serviceMethod, Params := param', Id := id? })

/-! Client-side response validation (`clientCodec.ReadResponseHeader`).
The struct-decoding steps model `encoding/json`'s behaviour on the
`clientResponse` struct: `null` is a no-op on any field, later duplicate
keys overwrite earlier ones, a type mismatch on any occurrence is an
error, and a JSON number decodes into a `uint64`/`int` field through
`strconv` (digits only, range-checked). -/

/-- All occurrences of `key` can decode into a Go `string` field. -/
def strOccOk (kvs : List (String × Json)) (key : String) : Bool :=
  kvs.all fun kv =>
    kv.1 ≠ key ||
      (match kv.2 with
       | .str _ => true
       | .null => true
       | _ => false)

/-- Model of `strconv.ParseUint(lex, 10, 64)` on a JSON number literal. -/
def lexUInt64 (lex : String) : Option Nat :=
  let cs := lex.toList
  if cs ≠ [] ∧ cs.all Char.isDigit then
    let n := cs.foldl (fun acc c => acc * 10 + (c.toNat - '0'.toNat)) 0
    if n < 2 ^ 64 then some n else none
  else none

/-- Model of `strconv.ParseInt(lex, 10, 64)` on a JSON number literal. -/
def lexInt (lex : String) : Option Int :=
  match lex.toList with
  | '-' :: ds =>
    if ds ≠ [] ∧ ds.all Char.isDigit then
      let n := ds.foldl (fun acc c => acc * 10 + (c.toNat - '0'.toNat)) 0
      if n ≤ 2 ^ 63 then some (-(n : Int)) else none
    else none
  | ds =>
    if ds ≠ [] ∧ ds.all Char.isDigit then
      let n := ds.foldl (fun acc c => acc * 10 + (c.toNat - '0'.toNat)) 0
      if n ≤ 2 ^ 63 - 1 then some (n : Int) else none
    else none

/-- All occurrences of `key` can decode into a Go `uint64` field. -/
def uintOccOk (kvs : List (String × Json)) (key : String) : Bool :=
  kvs.all fun kv =>
    kv.1 ≠ key ||
      (match kv.2 with
       | .null => true
       | .num lex => (lexUInt64 lex).isSome
       | _ => false)

/-- All occurrences of `key` can decode into a Go `int` field. -/
def intOccOk (kvs : List (String × Json)) (key : String) : Bool :=
  kvs.all fun kv =>
    kv.1 ≠ key ||
      (match kv.2 with
       | .null => true
       | .num lex => (lexInt lex).isSome
       | _ => false)

/-- A JSON value can decode into the `*Error` field: `null`, or an object
whose `code`/`message` members fit `int`/`string` (other members are
ignored by the struct decoder). -/
def errValOk : Json → Bool
  | .null => true
  | .obj ekvs => intOccOk ekvs "code" && strOccOk ekvs "message"
  | _ => false

/-- All occurrences of the `error` key can decode into the `*Error` field. -/
def errOccOk (kvs : List (String × Json)) : Bool :=
  kvs.all fun kv => kv.1 ≠ "error" || errValOk kv.2

/-- Decode an error object's members into the `Error` struct. -/
def errObjOf (ekvs : List (String × Json)) : Error :=
  let m := mapOf ekvs
  { code :=
      (match mapGetS m "code" with
       | some (.num lex) => (lexInt lex).getD 0
       | _ => 0),
    message :=
      (match mapGetS m "message" with
       | some (.str s) => s
       | _ => ""),
    data :=
      (match mapGetS m "data" with
       | none => none
       | some .null => none
       | some v => some (.val v)) }

/-- The decoded `clientResponse` work space. -/
structure clientResponse where
  Version : String
  Id : Nat
  Result : Option Json
  Error : Option Jsonrpc2.Error

/-- Model of `json.Unmarshal(raw, &c.resp)` on an object's members
(after `reset()`, so zero values stand in for untouched fields). -/
def decodeClientResponse (kvs : List (String × Json)) : Option clientResponse :=
  if strOccOk kvs "jsonrpc" && uintOccOk kvs "id" && errOccOk kvs then
    let m := mapOf kvs
    some
      { Version :=
          (match mapGetS m "jsonrpc" with
           | some (.str s) => s
           | _ => ""),
        Id :=
          (match mapGetS m "id" with
           | some (.num lex) => (lexUInt64 lex).getD 0
           | _ => 0),
        Result :=
          (match mapGetS m "result" with
           | none => none
           | some .null => none
           | some v => some v),
        Error :=
          (match mapGetS m "error" with
           | some (.obj ekvs) => some (errObjOf ekvs)
           | _ => none) }
  else none

/-- Outcome of the validation pipeline of `ReadResponseHeader` on one
decoded value: rejected (`-32603 "bad response"`), the response's own
error surfaced directly (null id with an error member), or accepted with
the numeric id and optional error object. -/
inductive VOut where
  | bad
  | surfaced (e : Error)
  | good (id : Nat) (errObj : Option Error)

/-- The full structural validation `ReadResponseHeader` performs on one
decoded JSON value before touching the pending map. -/
def validateResp (v : Json) : VOut :=
  match v with
  | .obj kvs =>
    let m := mapOf kvs
    if m.length ≠ 3 then .bad
    else if nilGet m "jsonrpc" then .bad
    else if ¬ hasKey m "id" then .bad
    else
      match decodeClientResponse kvs with
      | none => .bad
      | some resp =>
        if resp.Version ≠ "2.0" then .bad
        else
          let result :=
            if hasKey m "result" && resp.Result.isNone then some Json.null else resp.Result
          if (result.isNone && resp.Error.isNone) || (result.isSome && resp.Error.isSome) then .bad
          else
            let errStructOk : Bool :=
              match resp.Error with
              | none => true
              | some _ =>
                match mapGetS m "error" with
                | some (.obj ekvs) =>
                  let em := mapOf ekvs
                  !nilGet em "code" && !nilGet em "message" &&
                    !(em.length = 3 && !hasKey em "data") && !(decide (em.length > 3))
                | _ => false
            if ¬ errStructOk then .bad
            else if nilGet m "id" then
              match resp.Error with
              | some e => .surfaced e
              | none => .bad
            else .good resp.Id resp.Error
  | _ => .bad

/-- Result of `ReadResponseHeader`: `io.EOF` passed through, an `*Error`
returned, or success filling in the host framework's `rpc.Response`. -/
inductive CRes where
  | eofR
  | errR (e : Error)
  | okR (seq : Nat) (serviceMethod : String) (errStr : String)

/-- Model of `clientCodec.ReadResponseHeader` on the remaining input
stream: decode one value (EOF passes through unchanged, other decoder
errors become `-32603`), validate it, then resolve the pending method
name by id (a missing entry yields the empty method name). -/
def clientCodec.ReadResponseHeader (c : clientCodec) (input : List Char) : clientCodec × CRes :=
  match decodeOne input with
  | .eof => (c, .eofR)
  | .unexpEOF => (c, .errR (NewError errInternal.code "unexpected EOF"))
  | .syntaxErr => (c, .errR (NewError errInternal.code "invalid character"))
  | .ok v raw _ =>
    match validateResp v with
    | .bad => (c, .errR (NewError errInternal.code ("bad response: " ++ ⟨raw⟩)))
    | .surfaced e => (c, .errR e)
    | .good id errObj =>
      let method := (lookupN c.pending id).getD ""
      ({ pending := eraseN c.pending id },
       .okR id method
         (match errObj with
          | none => ""
          | some e => e.Error))

/-! Server codec (`server.go`). -/

/-- The decoded `serverRequest` work space (`Params`/`Id` are
`*json.RawMessage`: `none` is the nil pointer). -/
structure serverRequest where
  Version : String
  Method : String
  Params : Option Json
  Id : Option Json

/-- All occurrences of `key` among an object's members are acceptable for
a `string` struct field. -/
def strFieldOk (kvs : List (String × Json)) (key : String) : Bool :=
  strOccOk kvs key

/-- Model of `serverRequest.UnmarshalJSON` on one decoded value; every
failure is the error string `"bad request"`. -/
def unmarshalServerRequest (v : Json) : Except String serverRequest :=
  match v with
  | .obj kvs =>
    if ¬ (strFieldOk kvs "jsonrpc" ∧ strFieldOk kvs "method") then .error "bad request"
    else
      let o := mapOf kvs
      let version :=
        match mapGetS o "jsonrpc" with
        | some (.str s) => s
        | _ => ""
      let method :=
        match mapGetS o "method" with
        | some (.str s) => s
        | _ => ""
      let params :=
        match mapGetS o "params" with
        | none => none
        | some .null => none
        | some p => some p
      let id0 : Option Json :=
        match mapGetS o "id" with
        | none => none
        | some .null => none
        | some i => some i
      if nilGet o "jsonrpc" ∨ nilGet o "method" then .error "bad request"
      else
        let okId := hasKey o "id"
        let okParams := hasKey o "params"
        if (o.length = 3 ∧ ¬ (okId ∨ okParams)) ∨ (o.length = 4 ∧ ¬ (okId ∧ okParams)) ∨
            o.length > 4 then .error "bad request"
        else if version ≠ "2.0" then .error "bad request"
        else if okParams &&
            (match params with
             | some (.arr _) => false
             | some (.obj _) => false
             | _ => true) then .error "bad request"
        else
          let id1 := if okId && id0.isNone then some Json.null else id0
          if okId &&
              (match id1 with
               | some (.bool _) => true
               | some (.obj _) => true
               | some (.arr _) => true
               | _ => false) then .error "bad request"
          else
            .ok { Version := version, Method := method, Params := params, Id := id1 }
  | _ => .error "bad request"

/-- Server codec state: the sequence counter (a Go `uint64`) and the
id-translation table from sequence numbers to the original raw ids
(`none` models the nil pointer stored for requests without an id). -/
structure serverCodec where
  seq : Nat
  pending : List (Nat × Option Json)

/-- A fresh server codec (`NewServerCodec`). -/
def newServerCodec : serverCodec :=
  { seq := 0, pending := [] }

/-- The `error` field of an emitted `serverResponse`: either a typed
`*Error` value (handed to the encoder as a struct) or preformed raw JSON
text. -/
inductive SrvErrOut where
  | objE (e : Error)
  | rawE (s : String)

/-- An emitted `serverResponse` (its `Result`/`Error` fields carry
`omitempty`). -/
structure serverResponse where
  Version : String
  Id : Json
  Result : Option Json
  Error : Option SrvErrOut

/-- One JSON value written to the connection by the server codec. -/
inductive SrvEmit where
  | resp (r : serverResponse)
  | arrE (replies : List Json)

/-- Error returned upward by `ReadRequestHeader`. -/
inductive RErrS where
  | eofE
  | unexpEofE
  | syntaxE
  | badRequestE
deriving DecidableEq

/-- Everything one `ReadRequestHeader` call produces: the new codec
state, the values written to the connection, the result handed to the
host framework (or the error returned upward), and the unconsumed input. -/
structure ReadReqOut where
  st : serverCodec
  emits : List SrvEmit
  result : Except RErrS (Nat × String)
  rest : List Char

/-- The request a decoded value stands for: a top-level array is the
synthetic batch call (`raw[0] == '['`), anything else goes through the
strict validator. -/
def requestOf (v : Json) : Except RErrS serverRequest :=
  match v with
  | .arr _ =>
    .ok { Version := "2.0", Method := "JSONRPC2.Batch", Params := some v,
          Id := some Json.null }
  | _ =>
    match unmarshalServerRequest v with
    | .error _ => .error .badRequestE
    | .ok r => .ok r

/-- Model of `serverCodec.ReadRequestHeader`: decode one value (writing a
`-32700 Parse error` response first when the decoder reports a syntax
error), turn the value into a request via `requestOf` (writing a
`-32600 Invalid request` response on a validation failure), then assign
the next sequence number and store the raw id. -/
def serverCodec.ReadRequestHeader (c : serverCodec) (input : List Char) : ReadReqOut :=
  match decodeOne input with
  | .eof => ⟨c, [], .error .eofE, []⟩
  | .unexpEOF => ⟨c, [], .error .unexpEofE, []⟩
  | .syntaxErr =>
    ⟨c, [.resp { Version := "2.0", Id := Json.null, Result := none,
                 Error := some (.objE errParse) }],
     .error .syntaxE, []⟩
  | .ok v _ rest =>
    match requestOf v with
    | .error e =>
      ⟨c, [.resp { Version := "2.0", Id := Json.null, Result := none,
                   Error := some (.objE errRequest) }],
       .error e, rest⟩
    | .ok r =>
      let s := (c.seq + 1) % 2 ^ 64
      ⟨{ seq := s, pending := insertN c.pending s r.Id }, [], .ok (s, r.Method), rest⟩

/-- The `x` argument of `WriteResponse`: the batch reply slice
(`*[]*json.RawMessage`), an ordinary marshalable reply value, or nil. -/
inductive RVal where
  | batch (replies : List Json)
  | val (j : Json)
  | nilV

/-- Model of `serverCodec.WriteResponse`: look up and delete the stored
raw id by sequence number, then emit the batch reply array (nothing if
empty), nothing for a notification (nil stored id), or a single response
object carrying the result or a (possibly preformed) error. -/
def serverCodec.WriteResponse (c : serverCodec) (seq : Nat) (serviceMethod : String)
    (errStr : String) (x : RVal) : serverCodec × Except String (List SrvEmit) :=
  match lookupN c.pending seq with
  | none => (c, .error "invalid sequence number in response")
  | some b =>
    let c' : serverCodec := { c with pending := eraseN c.pending seq }
    let nonBatch : Except String (List SrvEmit) :=
      match b with
      | none => .ok []
      | some rawId =>
        if errStr = "" then
          .ok [.resp { Version := "2.0", Id := rawId,
                       Result := some
                         (match x with
                          | .nilV => Json.null
                          | .val j => j
                          | .batch rs => Json.arr rs),
                       Error := none }]
        else if errStr.toList.head? = some '\x7b' ∧ errStr.toList.getLast? = some '\x7d' then
          .ok [.resp { Version := "2.0", Id := rawId, Result := none,
                       Error := some (.rawE errStr) }]
        else
          .ok [.resp { Version := "2.0", Id := rawId, Result := none,
                       Error := some (.rawE (newError errStr).Error) }]
    if serviceMethod = "JSONRPC2.Batch" then
      match x with
      | .batch replies =>
        if replies.isEmpty then (c', .ok []) else (c', .ok [.arrE replies])
      | _ => (c', nonBatch)
    else (c', nonBatch)

/-! HTTP transport (`http.go`). -/

/-- The `Content-Type` constant. -/
def contentType : String := "application/json"

/-- The parts of an incoming HTTP request `ServeHTTP` inspects
(`Header.Get` returns the header value verbatim). -/
structure HttpRequest where
  method : String
  contentTypeHdr : String
  acceptHdr : String

/-- What the handler decides before (possibly) dispatching. -/
inductive HttpOutcome where
  | methodNotAllowed
  | unsupportedMediaType
  | dispatch
deriving DecidableEq

/-- Model of the request-validation part of `httpHandler.ServeHTTP`:
non-POST is 405; a `Content-Type` or `Accept` header differing from the
exact string `application/json` is 415; otherwise the body is dispatched
to the RPC server. -/
def ServeHTTP (r : HttpRequest) : HttpOutcome :=
  if r.method ≠ "POST" then .methodNotAllowed
  else if r.contentTypeHdr ≠ contentType ∨ r.acceptHdr ≠ contentType then
    .unsupportedMediaType
  else .dispatch

/-! Batch engine. -/

/-- Modelled from the spec: the batch engine (the registered
`JSONRPC2.Batch` method working on `BatchArg`), whose implementation is
not among the provided sources — only its registration and its callers
are.  Per spec §4.4, each sub-request is re-dispatched on a transient
codec over an in-memory pipe; the raw response bytes are captured, empty
outputs (notifications) are dropped, and reply order mirrors request
order.  `handle` abstracts one sub-dispatch: the raw response value, or
`none` when the sub-request produced no output. -/
def batchRun (handle : Json → Option Json) (reqs : List Json) : List Json :=
  reqs.filterMap handle

/-! Remaining definitions used by the theorems below. -/

/-- The amended parameter contract of `WriteRequest`, written from the
corrected claim: a nil string-keyed map or nil slice (or pointer to one)
becomes absent params; maps of any key kind, slices, arrays, structs and
pointers to these are handed to the encoder; every other kind fails
locally with `-32603 unsupported param type`. -/
def checkParamAmended : Option GoVal → Except Error (Option GoVal)
  | none => .ok none
  | some p =>
    let nilReplaced : Bool :=
      match p with
      | .mapV true true => true
      | .sliceV true => true
      | .ptrV (.mapV true true) => true
      | .ptrV (.sliceV true) => true
      | _ => false
    let encodable : Bool :=
      match p with
      | .mapV _ _ => true
      | .sliceV _ => true
      | .arrayV => true
      | .structV => true
      | .ptrV (.mapV _ _) => true
      | .ptrV (.sliceV _) => true
      | .ptrV .arrayV => true
      | .ptrV .structV => true
      | _ => false
    let kindMsg : String :=
      match p with
      | .ptrV k => "Ptr to " ++ kindString k
      | k => kindString k
    if nilReplaced then .ok none
    else if encodable then .ok (some p)
    else .error (NewError errInternal.code ("unsupported param type: " ++ kindMsg))

/-- One interaction with the server codec: a `ReadRequestHeader` call on
some input, or a `WriteResponse` call. -/
inductive SEvent where
  | readE (input : List Char)
  | writeE (seq : Nat) (serviceMethod : String) (errStr : String) (x : RVal)

/-- Run a list of codec interactions, collecting (in order) the sequence
numbers returned by successful `ReadRequestHeader` calls and the sequence
numbers of successful `WriteResponse` calls. -/
def runEvents : serverCodec → List SEvent → serverCodec × List Nat × List Nat
  | c, [] => (c, [], [])
  | c, .readE input :: evs =>
    let t := runEvents (serverCodec.ReadRequestHeader c input).st evs
    match (serverCodec.ReadRequestHeader c input).result with
    | .ok (s, _) => (t.1, s :: t.2.1, t.2.2)
    | .error _ => t
  | c, .writeE seq m es x :: evs =>
    let t := runEvents (serverCodec.WriteResponse c seq m es x).1 evs
    match (serverCodec.WriteResponse c seq m es x).2 with
    | .ok _ => (t.1, t.2.1, seq :: t.2.2)
    | .error _ => t

/-- The response `WriteResponse` emits for a stored raw id `rawId`
(the non-batch, non-notification path), as a function of the error string
and the reply value. -/
def respFor (rawId : Json) (errStr : String) (x : RVal) : serverResponse :=
  if errStr = "" then
    { Version := "2.0", Id := rawId,
      Result := some
        (match x with
         | .nilV => Json.null
         | .val j => j
         | .batch rs => Json.arr rs),
      Error := none }
  else if errStr.toList.head? = some '\x7b' ∧ errStr.toList.getLast? = some '\x7d' then
    { Version := "2.0", Id := rawId, Result := none, Error := some (.rawE errStr) }
  else
    { Version := "2.0", Id := rawId, Result := none,
      Error := some (.rawE (newError errStr).Error) }

/-! Helper lemmas about the association-list map model. -/

theorem countN_cons {α : Type} (k : Nat) (v : α) (m : List (Nat × α)) (s : Nat) :
    countN ((k, v) :: m) s = (if k = s then 1 else 0) + countN m s := by
  by_cases h : k = s <;> simp [countN, List.filter_cons, h, Nat.add_comm]

theorem eraseN_cons {α : Type} (k' : Nat) (v : α) (m : List (Nat × α)) (k : Nat) :
    eraseN ((k', v) :: m) k = if k' = k then eraseN m k else (k', v) :: eraseN m k := rfl

theorem lookupN_cons {α : Type} (k' : Nat) (v : α) (m : List (Nat × α)) (s : Nat) :
    lookupN ((k', v) :: m) s = if k' = s then some v else lookupN m s := rfl

theorem countN_eraseN_self {α : Type} (m : List (Nat × α)) (k : Nat) :
    countN (eraseN m k) k = 0 := by
  induction m with
  | nil => rfl
  | cons kv rest ih =>
    obtain ⟨k', v⟩ := kv
    by_cases hk : k' = k
    · simpa [eraseN_cons, hk] using ih
    · simp [eraseN_cons, hk, countN_cons, ih]

theorem countN_eraseN_ne {α : Type} (m : List (Nat × α)) (k s : Nat) (h : s ≠ k) :
    countN (eraseN m k) s = countN m s := by
  induction m with
  | nil => rfl
  | cons kv rest ih =>
    obtain ⟨k', v⟩ := kv
    by_cases hk : k' = k
    · subst hk
      simp [eraseN_cons, countN_cons, Ne.symm h, ih]
    · simp [eraseN_cons, hk, countN_cons, ih]

theorem countN_insertN_self {α : Type} (m : List (Nat × α)) (k : Nat) (v : α) :
    countN (insertN m k v) k = 1 := by
  simp [insertN, countN_cons, countN_eraseN_self]

theorem countN_insertN_ne {α : Type} (m : List (Nat × α)) (k s : Nat) (v : α) (h : s ≠ k) :
    countN (insertN m k v) s = countN m s := by
  simp [insertN, countN_cons, Ne.symm h, countN_eraseN_ne m k s h]

theorem lookupN_eq_none_iff_countN {α : Type} (m : List (Nat × α)) (k : Nat) :
    lookupN m k = none ↔ countN m k = 0 := by
  induction m with
  | nil => simp [lookupN, countN]
  | cons kv rest ih =>
    obtain ⟨k', v⟩ := kv
    by_cases h : k' = k <;> simp [lookupN_cons, countN_cons, h, ih]

theorem eraseN_of_countN_zero {α : Type} (m : List (Nat × α)) (k : Nat)
    (h : countN m k = 0) : eraseN m k = m := by
  induction m with
  | nil => rfl
  | cons kv rest ih =>
    obtain ⟨k', v⟩ := kv
    by_cases hk : k' = k
    · rw [countN_cons, if_pos hk] at h
      omega
    · rw [countN_cons, if_neg hk, Nat.zero_add] at h
      simp [eraseN_cons, hk, ih h]

theorem lookupN_insertN_self {α : Type} (m : List (Nat × α)) (k : Nat) (v : α) :
    lookupN (insertN m k v) k = some v := by
  simp [insertN, lookupN]

theorem lookupN_eraseN_ne {α : Type} (m : List (Nat × α)) (k s : Nat) (h : s ≠ k) :
    lookupN (eraseN m k) s = lookupN m s := by
  induction m with
  | nil => rfl
  | cons kv rest ih =>
    obtain ⟨k', v⟩ := kv
    by_cases hk : k' = k
    · subst hk
      simp [eraseN_cons, lookupN_cons, Ne.symm h, ih]
    · simp [eraseN_cons, hk, lookupN_cons, ih]

theorem lookupN_insertN_ne {α : Type} (m : List (Nat × α)) (k s : Nat) (v : α) (h : s ≠ k) :
    lookupN (insertN m k v) s = lookupN m s := by
  rw [insertN, lookupN_cons, if_neg (fun hh => h hh.symm), lookupN_eraseN_ne m k s h]

/-- Whitespace-only input is consumed entirely. -/
theorem skipWs_eq_nil_of_all_ws (s : List Char) (h : s.all isWs) : skipWs s = [] := by
  induction s with
  | nil => rfl
  | cons c rest ih =>
    rw [List.all_cons, Bool.and_eq_true] at h
    simp [skipWs, h.1, ih h.2]

/-! Roundtrip lemmas: what the serializer emits re-parses through the
decoder model.  They culminate in `decode_code_message`, used to show
that `Error()` output is well-formed JSON carrying the expected members. -/

theorem skipWs_not_ws (c : Char) (t : List Char) (h : isWs c = false) :
    skipWs (c :: t) = c :: t := by
  simp [skipWs, h]

theorem hexVal_hexDigitChar (n : Nat) (h : n < 16) : hexVal (hexDigitChar n) = some n := by
  interval_cases n <;> decide

/-- Structural equation: a closing quote ends the string body. -/
theorem parseStrBody_quote (T : List Char) : parseStrBody ('"' :: T) = .ok ([], T) := by
  rw [parseStrBody.eq_def]
  split
  · rename_i heq; exact absurd heq (by simp)
  · rename_i c0 T0 heq
    injection heq with e1 e2
    subst e1; subst e2
    rw [if_pos rfl]

/-- Structural equation: a single-character escape pushes its decoding. -/
theorem parseStrBody_escCase (e c' : Char) (T : List Char) (hu : ¬ e = 'u')
    (he : escChar e = some c') :
    parseStrBody ('\\' :: e :: T) = pushChar c' (parseStrBody T) := by
  rw [parseStrBody.eq_def]
  show (if ('\\' : Char) = '"' then Except.ok ([], e :: T)
    else if ('\\' : Char) = '\\' then
      (if e = 'u' then
        (match T with
         | h1 :: h2 :: h3 :: h4 :: r =>
           (match hexVal h1, hexVal h2, hexVal h3, hexVal h4 with
            | some a, some b, some c', some d =>
              pushChar (Char.ofNat (((a * 16 + b) * 16 + c') * 16 + d)) (parseStrBody r)
            | _, _, _, _ => Except.error PErr.syntaxErr)
         | _ => Except.error PErr.syntaxErr)
       else
        (match escChar e with
         | some c' => pushChar c' (parseStrBody T)
         | none => Except.error PErr.syntaxErr))
    else if ('\\' : Char).toNat < 32 then Except.error PErr.syntaxErr
    else pushChar '\\' (parseStrBody (e :: T))) = pushChar c' (parseStrBody T)
  rw [if_neg (by decide), if_pos rfl, if_neg hu, he]

/-- Structural equation: a `\uXXXX` escape pushes the coded character. -/
theorem parseStrBody_hexCase (x1 x2 x3 x4 : Char) (a b c d : Nat) (T : List Char)
    (h1 : hexVal x1 = some a) (h2 : hexVal x2 = some b)
    (h3 : hexVal x3 = some c) (h4 : hexVal x4 = some d) :
    parseStrBody ('\\' :: 'u' :: x1 :: x2 :: x3 :: x4 :: T) =
      pushChar (Char.ofNat (((a * 16 + b) * 16 + c) * 16 + d)) (parseStrBody T) := by
  rw [parseStrBody.eq_def]
  show (if ('\\' : Char) = '"' then Except.ok ([], 'u' :: x1 :: x2 :: x3 :: x4 :: T)
    else if ('\\' : Char) = '\\' then
      (if ('u' : Char) = 'u' then
        (match hexVal x1, hexVal x2, hexVal x3, hexVal x4 with
         | some a, some b, some c', some d =>
           pushChar (Char.ofNat (((a * 16 + b) * 16 + c') * 16 + d)) (parseStrBody T)
         | _, _, _, _ => Except.error PErr.syntaxErr)
       else
        (match escChar 'u' with
         | some c' => pushChar c' (parseStrBody (x1 :: x2 :: x3 :: x4 :: T))
         | none => Except.error PErr.syntaxErr))
    else if ('\\' : Char).toNat < 32 then Except.error PErr.syntaxErr
    else pushChar '\\' (parseStrBody ('u' :: x1 :: x2 :: x3 :: x4 :: T))) = _
  rw [if_neg (by decide), if_pos rfl, if_pos rfl, h1, h2, h3, h4]

/-- Structural equation: an unescaped printable character is kept. -/
theorem parseStrBody_plain (c : Char) (T : List Char) (h1 : ¬ c = '"') (h2 : ¬ c = '\\')
    (h3 : ¬ c.toNat < 32) :
    parseStrBody (c :: T) = pushChar c (parseStrBody T) := by
  rw [parseStrBody.eq_def]
  split
  · rename_i heq; exact absurd heq (by simp)
  · rename_i c0 T0 heq
    injection heq with e1 e2
    subst e1; subst e2
    rw [if_neg h1, if_neg h2, if_neg h3]

/-- The escaping made by the JSON encoder model is inverted by the
string scanner: the round trip restores the characters exactly. -/
theorem parseStrBody_escape (cs : List Char) : ∀ rest : List Char,
    parseStrBody (escapeStr cs ++ '"' :: rest) = .ok (cs, rest) := by
  induction cs with
  | nil =>
    intro rest
    have hn : escapeStr [] ++ '"' :: rest = '"' :: rest := rfl
    rw [hn, parseStrBody_quote]
  | cons c cs ih =>
    intro rest
    have hesc : escapeStr (c :: cs) ++ '"' :: rest =
        escapeChar c ++ (escapeStr cs ++ '"' :: rest) := by
      show (escapeChar c ++ escapeStr cs) ++ '"' :: rest = _
      rw [List.append_assoc]
    rw [hesc]
    by_cases h1 : c = '"'
    · subst h1
      show parseStrBody ('\\' :: '"' :: (escapeStr cs ++ '"' :: rest)) = _
      rw [parseStrBody_escCase '"' '"' _ (by decide) (by decide), ih]
      rfl
    · by_cases h2 : c = '\\'
      · subst h2
        show parseStrBody ('\\' :: '\\' :: (escapeStr cs ++ '"' :: rest)) = _
        rw [parseStrBody_escCase '\\' '\\' _ (by decide) (by decide), ih]
        rfl
      · by_cases h3 : c = '\n'
        · subst h3
          show parseStrBody ('\\' :: 'n' :: (escapeStr cs ++ '"' :: rest)) = _
          rw [parseStrBody_escCase 'n' '\n' _ (by decide) (by decide), ih]
          rfl
        · by_cases h4 : c = '\r'
          · subst h4
            show parseStrBody ('\\' :: 'r' :: (escapeStr cs ++ '"' :: rest)) = _
            rw [parseStrBody_escCase 'r' '\r' _ (by decide) (by decide), ih]
            rfl
          · by_cases h5 : c = '\t'
            · subst h5
              show parseStrBody ('\\' :: 't' :: (escapeStr cs ++ '"' :: rest)) = _
              rw [parseStrBody_escCase 't' '\t' _ (by decide) (by decide), ih]
              rfl
            · by_cases h6 : c.toNat < 32 ∨ c = '<' ∨ c = '>' ∨ c = '&'
              · have hesc2 : escapeChar c =
                    ['\\', 'u', '0', '0', hexDigitChar (c.toNat / 16),
                     hexDigitChar (c.toNat % 16)] := by
                  unfold escapeChar
                  rw [if_neg h1, if_neg h2, if_neg h3, if_neg h4, if_neg h5, if_pos h6]
                have hlt : c.toNat < 256 := by
                  rcases h6 with h | h | h | h
                  · omega
                  · subst h; decide
                  · subst h; decide
                  · subst h; decide
                rw [hesc2]
                show parseStrBody ('\\' :: 'u' :: '0' :: '0' ::
                  hexDigitChar (c.toNat / 16) :: hexDigitChar (c.toNat % 16) ::
                  (escapeStr cs ++ '"' :: rest)) = _
                rw [parseStrBody_hexCase '0' '0' (hexDigitChar (c.toNat / 16))
                      (hexDigitChar (c.toNat % 16)) 0 0 (c.toNat / 16) (c.toNat % 16) _
                      (by decide) (by decide)
                      (hexVal_hexDigitChar _ (by omega)) (hexVal_hexDigitChar _ (by omega)),
                    ih]
                have harith : ((0 * 16 + 0) * 16 + c.toNat / 16) * 16 + c.toNat % 16 =
                    c.toNat := by omega
                rw [harith, Char.ofNat_toNat]
                rfl
              · by_cases h7 : c.toNat = 8232 ∨ c.toNat = 8233
                · have hesc2 : escapeChar c =
                      ['\\', 'u', '2', '0', '2', hexDigitChar (c.toNat % 16)] := by
                    unfold escapeChar
                    rw [if_neg h1, if_neg h2, if_neg h3, if_neg h4, if_neg h5,
                        if_neg h6, if_pos h7]
                  rw [hesc2]
                  show parseStrBody ('\\' :: 'u' :: '2' :: '0' :: '2' ::
                    hexDigitChar (c.toNat % 16) :: (escapeStr cs ++ '"' :: rest)) = _
                  rw [parseStrBody_hexCase '2' '0' '2' (hexDigitChar (c.toNat % 16))
                        2 0 2 (c.toNat % 16) _
                        (by decide) (by decide) (by decide)
                        (hexVal_hexDigitChar _ (by omega)),
                      ih]
                  have harith : ((2 * 16 + 0) * 16 + 2) * 16 + c.toNat % 16 = c.toNat := by
                    rcases h7 with h7 | h7 <;> omega
                  rw [harith, Char.ofNat_toNat]
                  rfl
                · have hesc2 : escapeChar c = [c] := by
                    unfold escapeChar
                    rw [if_neg h1, if_neg h2, if_neg h3, if_neg h4, if_neg h5,
                        if_neg h6, if_neg h7]
                  rw [hesc2]
                  have h32 : ¬ c.toNat < 32 := fun hx => h6 (Or.inl hx)
                  show parseStrBody (c :: (escapeStr cs ++ '"' :: rest)) = _
                  rw [parseStrBody_plain c _ h1 h2 h32, ih]
                  rfl

theorem isDigit_toNat (c : Char) (h : c.isDigit = true) : 48 ≤ c.toNat ∧ c.toNat ≤ 57 := by
  simp [Char.isDigit, decide_eq_true_eq] at h
  exact ⟨h.1, h.2⟩

theorem isWs_false_of_digit (c : Char) (h : c.isDigit = true) : isWs c = false := by
  have hb := isDigit_toNat c h
  simp only [isWs, Bool.or_eq_false_iff]
  refine ⟨⟨⟨?_, ?_⟩, ?_⟩, ?_⟩ <;>
    · simp only [decide_eq_false_iff_not]
      intro he
      subst he
      simp at hb

theorem digit_ne (c x : Char) (h : c.isDigit = true) (hx : x.isDigit = false) : c ≠ x := by
  intro he; subst he; rw [h] at hx; exact absurd hx (by simp)


theorem spanDigits_split (ds : List Char) (sep : Char) (X : List Char)
    (hd : ds.all Char.isDigit = true) (hsep : sep.isDigit = false) :
    spanDigits (ds ++ sep :: X) = (ds, sep :: X) := by
  induction ds with
  | nil => simp [spanDigits, hsep]
  | cons d ds ih =>
    rw [List.all_cons, Bool.and_eq_true] at hd
    simp [spanDigits, hd.1, ih hd.2]

theorem scanExp_sep (lex : List Char) (sep : Char) (X : List Char)
    (he : ¬ sep = 'e') (hE : ¬ sep = 'E') :
    scanExp lex (sep :: X) = .ok (lex, sep :: X) := by
  simp [scanExp, he, hE]

theorem scanNumTail_sep (lex : List Char) (sep : Char) (X : List Char)
    (hdot : ¬ sep = '.') (he : ¬ sep = 'e') (hE : ¬ sep = 'E') :
    scanNumTail lex (sep :: X) = .ok (lex, sep :: X) := by
  simp [scanNumTail, hdot, scanExp, he, hE]

theorem scanNumStart_digits (neg : List Char) (c : Char) (ds : List Char) (sep : Char)
    (X : List Char) (hall : (c :: ds).all Char.isDigit = true) (hzero : c = '0' → ds = [])
    (hsep : sep.isDigit = false) (hdot : ¬ sep = '.') (he : ¬ sep = 'e') (hE : ¬ sep = 'E') :
    scanNumStart neg ((c :: ds) ++ sep :: X) = .ok (neg ++ c :: ds, sep :: X) := by
  rw [List.all_cons, Bool.and_eq_true] at hall
  by_cases hc0 : c = '0'
  · have hds := hzero hc0
    subst hds
    subst hc0
    show scanNumStart neg ('0' :: sep :: X) = _
    rw [scanNumStart]
    simp only [if_pos rfl]
    exact scanNumTail_sep _ _ _ hdot he hE
  · show scanNumStart neg (c :: (ds ++ sep :: X)) = _
    rw [scanNumStart]
    simp only [if_neg hc0, hall.1, if_pos trivial]
    rw [show (c :: (ds ++ sep :: X)) = ((c :: ds) ++ sep :: X) from rfl,
        spanDigits_split _ _ _ (by simp [hall.1, hall.2]) hsep]
    exact scanNumTail_sep _ _ _ hdot he hE

theorem scanNumber_digits (c : Char) (ds : List Char) (sep : Char) (X : List Char)
    (hall : (c :: ds).all Char.isDigit = true) (hzero : c = '0' → ds = [])
    (hsep : sep.isDigit = false) (hdot : ¬ sep = '.') (he : ¬ sep = 'e') (hE : ¬ sep = 'E') :
    scanNumber ((c :: ds) ++ sep :: X) = .ok (c :: ds, sep :: X) := by
  have hcd : c.isDigit = true := by
    rw [List.all_cons, Bool.and_eq_true] at hall; exact hall.1
  show scanNumber (c :: (ds ++ sep :: X)) = _
  rw [scanNumber]
  simp only [if_neg (digit_ne c '-' hcd (by decide))]
  exact scanNumStart_digits [] c ds sep X hall hzero hsep hdot he hE

theorem scanNumber_neg_digits (c : Char) (ds : List Char) (sep : Char) (X : List Char)
    (hall : (c :: ds).all Char.isDigit = true) (hzero : c = '0' → ds = [])
    (hsep : sep.isDigit = false) (hdot : ¬ sep = '.') (he : ¬ sep = 'e') (hE : ¬ sep = 'E') :
    scanNumber (('-' :: c :: ds) ++ sep :: X) = .ok ('-' :: c :: ds, sep :: X) := by
  show scanNumber ('-' :: ((c :: ds) ++ sep :: X)) = _
  rw [scanNumber]
  simp only [if_pos rfl]
  exact scanNumStart_digits ['-'] c ds sep X hall hzero hsep hdot he hE


theorem digitChar_isDigit (m : Nat) (h : m < 10) :
    (Char.ofNat (48 + m)).isDigit = true := by
  interval_cases m <;> decide

theorem natDecGo_spec (f : Nat) : ∀ n : Nat, n < 10 ^ f →
    ∃ c cs, natDecGo (f + 1) n = c :: cs ∧ (c :: cs).all Char.isDigit = true ∧
      (1 ≤ n → ¬ c = '0') ∧ (c = '0' → cs = []) := by
  induction f with
  | zero =>
    intro n hn
    have hn0 : n = 0 := by omega
    subst hn0
    exact ⟨'0', [], by decide, by decide, by omega, fun _ => rfl⟩
  | succ f ih =>
    intro n hn
    by_cases h10 : n < 10
    · refine ⟨Char.ofNat (48 + n), [], ?_, ?_, ?_, fun _ => rfl⟩
      · show natDecGo (f + 1 + 1) n = _
        rw [natDecGo, if_pos h10]
        rfl
      · simp [digitChar_isDigit n h10]
      · intro h1; interval_cases n <;> decide
    · have hq : n / 10 < 10 ^ f := by
        rw [pow_succ] at hn
        omega
      obtain ⟨c, cs, hrep, hdig, hnz, _⟩ := ih (n / 10) hq
      refine ⟨c, cs ++ [Char.ofNat (48 + n % 10)], ?_, ?_, ?_, ?_⟩
      · show natDecGo (f + 1 + 1) n = _
        rw [natDecGo, if_neg h10, hrep]
        rfl
      · rw [List.all_cons, Bool.and_eq_true] at hdig ⊢
        refine ⟨hdig.1, ?_⟩
        rw [List.all_append]
        simp [hdig.2, digitChar_isDigit (n % 10) (by omega)]
      · intro _; exact hnz (by omega)
      · intro he; exact absurd he (hnz (by omega))

theorem intDec_scan (i : Int) (hb : i.natAbs < 10 ^ 23) :
    ∃ c cs, (intDec i).toList = c :: cs ∧ (c = '-' ∨ c.isDigit = true) ∧
      (∀ sep X, sep.isDigit = false → ¬ sep = '.' → ¬ sep = 'e' → ¬ sep = 'E' →
        scanNumber ((c :: cs) ++ sep :: X) = .ok (c :: cs, sep :: X)) := by
  cases i with
  | ofNat n =>
    have hbn : n < 10 ^ 23 := by
      have : (Int.ofNat n).natAbs = n := rfl
      omega
    obtain ⟨c, cs, hrep, hdig, _, hz0⟩ := natDecGo_spec 23 n hbn
    refine ⟨c, cs, ?_, Or.inr ?_, ?_⟩
    · show natDecGo (23 + 1) n = c :: cs
      exact hrep
    · rw [List.all_cons, Bool.and_eq_true] at hdig
      exact hdig.1
    · intro sep X hsep hdot he hE
      exact scanNumber_digits c cs sep X hdig hz0 hsep hdot he hE
  | negSucc n =>
    have hb' : n + 1 < 10 ^ 23 := by
      have : (Int.negSucc n).natAbs = n + 1 := rfl
      omega
    obtain ⟨c, cs, hrep, hdig, _, hz0⟩ := natDecGo_spec 23 (n + 1) hb'
    refine ⟨'-', c :: cs, ?_, Or.inl rfl, ?_⟩
    · show '-' :: natDecGo (23 + 1) (n + 1) = '-' :: c :: cs
      rw [hrep]
    · intro sep X hsep hdot he hE
      exact scanNumber_neg_digits c cs sep X hdig hz0 hsep hdot he hE

theorem parseValue_num (f : Nat) (c : Char) (rest lex r : List Char)
    (hc : c = '-' ∨ c.isDigit = true)
    (hscan : scanNumber (c :: rest) = .ok (lex, r)) :
    parseValue (f + 1) (c :: rest) = .ok (.num ⟨lex⟩, r) := by
  have hq : ¬ c = '"' := by
    rcases hc with h | h
    · subst h; decide
    · exact digit_ne c '"' h (by decide)
  have ht : ¬ c = 't' := by
    rcases hc with h | h
    · subst h; decide
    · exact digit_ne c 't' h (by decide)
  have hf2 : ¬ c = 'f' := by
    rcases hc with h | h
    · subst h; decide
    · exact digit_ne c 'f' h (by decide)
  have hn : ¬ c = 'n' := by
    rcases hc with h | h
    · subst h; decide
    · exact digit_ne c 'n' h (by decide)
  rw [parseValue.eq_def]
  split
  · rename_i heq; exact absurd heq (by omega)
  · split
    · rename_i heq; exact absurd heq (by simp)
    · rename_i c0 T0 heq
      injection heq with e1 e2
      subst e1; subst e2
      rw [if_neg hq, if_neg ht, if_neg hf2, if_neg hn, if_pos hc, hscan]


theorem parseValue_obj (f : Nat) (rest X : List Char) (kvs : List (String × Json)) (r : List Char)
    (hws : skipWs rest = '"' :: X)
    (hm : parseMembers f ('"' :: X) = .ok (kvs, r)) :
    parseValue (f + 1) ('\x7b' :: rest) = .ok (.obj kvs, r) := by
  rw [parseValue.eq_def]
  split
  · rename_i heq; exact absurd heq (by omega)
  · rename_i fuel s hfe
    split
    · rename_i heq; exact absurd heq (by simp)
    · rename_i c0 T0 heq
      injection heq with e1 e2
      subst e1; subst e2
      rw [if_neg (by decide), if_neg (by decide), if_neg (by decide), if_neg (by decide),
          if_neg (by decide), if_neg (by decide), if_pos rfl, hws]
      have hfuel : s = f := by omega
      subst hfuel
      split
      · rename_i heq
        exact absurd heq (by simp)
      · rw [hm]


theorem parseMembers_last (f : Nat) (kbody kcs r1 r2 r3 r4 : List Char) (v : Json)
    (hk : parseStrBody kbody = .ok (kcs, r1))
    (h1 : skipWs r1 = ':' :: r2)
    (hv : parseValue f (skipWs r2) = .ok (v, r3))
    (h3 : skipWs r3 = '\x7d' :: r4) :
    parseMembers (f + 1) ('"' :: kbody) = .ok ([(⟨kcs⟩, v)], r4) := by
  rw [parseMembers.eq_def]
  split
  · rename_i heq; exact absurd heq (by omega)
  · rename_i u w hfe
    split
    · rename_i heq; exact absurd heq (by simp)
    · rename_i r heq
      injection heq with e1 e2
      subst e2
      have hfuel : w = f := by omega
      subst hfuel
      simp only [hk, h1, hv, h3]
    · rename_i hne1 hne2
      exact absurd rfl (hne2 kbody)

theorem parseMembers_cons (f : Nat) (kbody kcs r1 r2 r3 r4 r5 : List Char) (v : Json)
    (kvs : List (String × Json))
    (hk : parseStrBody kbody = .ok (kcs, r1))
    (h1 : skipWs r1 = ':' :: r2)
    (hv : parseValue f (skipWs r2) = .ok (v, r3))
    (h3 : skipWs r3 = ',' :: r4)
    (hrest : parseMembers f (skipWs r4) = .ok (kvs, r5)) :
    parseMembers (f + 1) ('"' :: kbody) = .ok ((⟨kcs⟩, v) :: kvs, r5) := by
  rw [parseMembers.eq_def]
  split
  · rename_i heq; exact absurd heq (by omega)
  · rename_i u w hfe
    split
    · rename_i heq; exact absurd heq (by simp)
    · rename_i r heq
      injection heq with e1 e2
      subst e2
      have hfuel : w = f := by omega
      subst hfuel
      simp only [hk, h1, hv, h3, hrest]
    · rename_i hne1 hne2
      exact absurd rfl (hne2 kbody)



theorem parseValue_str (f : Nat) (body cs r : List Char) (h : parseStrBody body = .ok (cs, r)) :
    parseValue (f + 1) ('"' :: body) = .ok (.str ⟨cs⟩, r) := by
  rw [parseValue.eq_def]
  split
  · rename_i heq; exact absurd heq (by omega)
  · split
    · rename_i heq; exact absurd heq (by simp)
    · rename_i c0 T0 heq
      injection heq with e1 e2
      subst e1; subst e2
      rw [if_pos rfl, h]


/-- The decoder model accepts the canonical two-member error object the
serializer produces, yielding exactly the code and message members. -/
theorem decode_code_message (i : Int) (msg : String) (hb : i.natAbs < 10 ^ 23) :
    decodeOne (("\x7b\"code\":" ++ intDec i ++ ",\"message\":" ++ goQuote msg ++ "\x7d").toList) =
      .ok (.obj [("code", .num (intDec i)), ("message", .str msg)])
        (("\x7b\"code\":" ++ intDec i ++ ",\"message\":" ++ goQuote msg ++ "\x7d").toList)
        [] := by
  obtain ⟨c, cs, hrep, hc, hscan⟩ := intDec_scan i hb
  have hcw : isWs c = false := by
    rcases hc with h | h
    · subst h; decide
    · exact isWs_false_of_digit c h
  have hta : ∀ a b : String, (a ++ b).toList = a.toList ++ b.toList := fun _ _ => rfl
  have hS : ("\x7b\"code\":" ++ intDec i ++ ",\"message\":" ++ goQuote msg ++ "\x7d").toList =
      '\x7b' :: '"' :: 'c' :: 'o' :: 'd' :: 'e' :: '"' :: ':' :: c :: (cs ++ ',' :: '"' :: 'm' :: 'e' :: 's' :: 's' :: 'a' :: 'g' :: 'e' :: '"' :: ':' :: '"' :: (escapeStr msg.toList ++ '"' :: ['\x7d'])) := by
    simp only [hta]
    rw [hrep]
    rw [show (goQuote msg).toList = '"' :: (escapeStr msg.toList ++ ['"']) from rfl]
    rw [show ("\x7b\"code\":").toList = ['\x7b','"','c','o','d','e','"',':'] from by decide]
    rw [show (",\"message\":").toList = [',','"','m','e','s','s','a','g','e','"',':'] from by decide]
    rw [show ("\x7d").toList = ['\x7d'] from by decide]
    simp only [List.cons_append, List.nil_append, List.append_assoc]
  have hmem2 : parseMembers (2 * ('\x7b' :: '"' :: 'c' :: 'o' :: 'd' :: 'e' :: '"' :: ':' :: c :: (cs ++ ',' :: '"' :: 'm' :: 'e' :: 's' :: 's' :: 'a' :: 'g' :: 'e' :: '"' :: ':' :: '"' :: (escapeStr msg.toList ++ '"' :: ['\x7d']))).length + 2) ('"' :: 'm' :: 'e' :: 's' :: 's' :: 'a' :: 'g' :: 'e' :: '"' :: ':' :: '"' :: (escapeStr msg.toList ++ '"' :: ['\x7d'])) =
      .ok ([(⟨['m','e','s','s','a','g','e']⟩, Json.str ⟨msg.toList⟩)], []) := by
    rw [show 2 * ('\x7b' :: '"' :: 'c' :: 'o' :: 'd' :: 'e' :: '"' :: ':' :: c :: (cs ++ ',' :: '"' :: 'm' :: 'e' :: 's' :: 's' :: 'a' :: 'g' :: 'e' :: '"' :: ':' :: '"' :: (escapeStr msg.toList ++ '"' :: ['\x7d']))).length + 2 = (2 * ('\x7b' :: '"' :: 'c' :: 'o' :: 'd' :: 'e' :: '"' :: ':' :: c :: (cs ++ ',' :: '"' :: 'm' :: 'e' :: 's' :: 's' :: 'a' :: 'g' :: 'e' :: '"' :: ':' :: '"' :: (escapeStr msg.toList ++ '"' :: ['\x7d']))).length + 1) + 1 from rfl]
    refine parseMembers_last (2 * ('\x7b' :: '"' :: 'c' :: 'o' :: 'd' :: 'e' :: '"' :: ':' :: c :: (cs ++ ',' :: '"' :: 'm' :: 'e' :: 's' :: 's' :: 'a' :: 'g' :: 'e' :: '"' :: ':' :: '"' :: (escapeStr msg.toList ++ '"' :: ['\x7d']))).length + 1) _ _ _ _ _ _ _
      (parseStrBody_escape ['m','e','s','s','a','g','e'] (':' :: '"' :: (escapeStr msg.toList ++ '"' :: ['\x7d'])))
      (skipWs_not_ws ':' _ (by decide)) ?_ (skipWs_not_ws '\x7d' [] (by decide))
    rw [skipWs_not_ws '"' _ (by decide)]
    exact parseValue_str (2 * ('\x7b' :: '"' :: 'c' :: 'o' :: 'd' :: 'e' :: '"' :: ':' :: c :: (cs ++ ',' :: '"' :: 'm' :: 'e' :: 's' :: 's' :: 'a' :: 'g' :: 'e' :: '"' :: ':' :: '"' :: (escapeStr msg.toList ++ '"' :: ['\x7d']))).length) _ _ _ (parseStrBody_escape msg.toList ['\x7d'])
  have hmem1 : parseMembers (2 * ('\x7b' :: '"' :: 'c' :: 'o' :: 'd' :: 'e' :: '"' :: ':' :: c :: (cs ++ ',' :: '"' :: 'm' :: 'e' :: 's' :: 's' :: 'a' :: 'g' :: 'e' :: '"' :: ':' :: '"' :: (escapeStr msg.toList ++ '"' :: ['\x7d']))).length + 3) ('"' :: 'c' :: 'o' :: 'd' :: 'e' :: '"' :: ':' :: c :: (cs ++ ',' :: '"' :: 'm' :: 'e' :: 's' :: 's' :: 'a' :: 'g' :: 'e' :: '"' :: ':' :: '"' :: (escapeStr msg.toList ++ '"' :: ['\x7d']))) = .ok ([(⟨['c','o','d','e']⟩, Json.num ⟨c :: cs⟩), (⟨['m','e','s','s','a','g','e']⟩, Json.str ⟨msg.toList⟩)], []) := by
    rw [show 2 * ('\x7b' :: '"' :: 'c' :: 'o' :: 'd' :: 'e' :: '"' :: ':' :: c :: (cs ++ ',' :: '"' :: 'm' :: 'e' :: 's' :: 's' :: 'a' :: 'g' :: 'e' :: '"' :: ':' :: '"' :: (escapeStr msg.toList ++ '"' :: ['\x7d']))).length + 3 = (2 * ('\x7b' :: '"' :: 'c' :: 'o' :: 'd' :: 'e' :: '"' :: ':' :: c :: (cs ++ ',' :: '"' :: 'm' :: 'e' :: 's' :: 's' :: 'a' :: 'g' :: 'e' :: '"' :: ':' :: '"' :: (escapeStr msg.toList ++ '"' :: ['\x7d']))).length + 2) + 1 from rfl]
    refine parseMembers_cons (2 * ('\x7b' :: '"' :: 'c' :: 'o' :: 'd' :: 'e' :: '"' :: ':' :: c :: (cs ++ ',' :: '"' :: 'm' :: 'e' :: 's' :: 's' :: 'a' :: 'g' :: 'e' :: '"' :: ':' :: '"' :: (escapeStr msg.toList ++ '"' :: ['\x7d']))).length + 2) _ _ _ _
      (',' :: '"' :: 'm' :: 'e' :: 's' :: 's' :: 'a' :: 'g' :: 'e' :: '"' :: ':' :: '"' :: (escapeStr msg.toList ++ '"' :: ['\x7d'])) ('"' :: 'm' :: 'e' :: 's' :: 's' :: 'a' :: 'g' :: 'e' :: '"' :: ':' :: '"' :: (escapeStr msg.toList ++ '"' :: ['\x7d'])) _ _ _
      (parseStrBody_escape ['c','o','d','e'] (':' :: c :: (cs ++ ',' :: '"' :: 'm' :: 'e' :: 's' :: 's' :: 'a' :: 'g' :: 'e' :: '"' :: ':' :: '"' :: (escapeStr msg.toList ++ '"' :: ['\x7d']))))
      (skipWs_not_ws ':' _ (by decide)) ?_ (skipWs_not_ws ',' _ (by decide)) ?_
    · rw [skipWs_not_ws c _ hcw]
      exact parseValue_num (2 * ('\x7b' :: '"' :: 'c' :: 'o' :: 'd' :: 'e' :: '"' :: ':' :: c :: (cs ++ ',' :: '"' :: 'm' :: 'e' :: 's' :: 's' :: 'a' :: 'g' :: 'e' :: '"' :: ':' :: '"' :: (escapeStr msg.toList ++ '"' :: ['\x7d']))).length + 1) c _ _ _ hc
        (hscan ',' ('"' :: 'm' :: 'e' :: 's' :: 's' :: 'a' :: 'g' :: 'e' :: '"' :: ':' :: '"' :: (escapeStr msg.toList ++ '"' :: ['\x7d'])) (by decide) (by decide) (by decide) (by decide))
    · rw [skipWs_not_ws '"' _ (by decide)]
      exact hmem2
  have htop : parseValue (2 * ('\x7b' :: '"' :: 'c' :: 'o' :: 'd' :: 'e' :: '"' :: ':' :: c :: (cs ++ ',' :: '"' :: 'm' :: 'e' :: 's' :: 's' :: 'a' :: 'g' :: 'e' :: '"' :: ':' :: '"' :: (escapeStr msg.toList ++ '"' :: ['\x7d']))).length + 4) ('\x7b' :: '"' :: 'c' :: 'o' :: 'd' :: 'e' :: '"' :: ':' :: c :: (cs ++ ',' :: '"' :: 'm' :: 'e' :: 's' :: 's' :: 'a' :: 'g' :: 'e' :: '"' :: ':' :: '"' :: (escapeStr msg.toList ++ '"' :: ['\x7d']))) = .ok (.obj [(⟨['c','o','d','e']⟩, Json.num ⟨c :: cs⟩), (⟨['m','e','s','s','a','g','e']⟩, Json.str ⟨msg.toList⟩)], []) := by
    rw [show 2 * ('\x7b' :: '"' :: 'c' :: 'o' :: 'd' :: 'e' :: '"' :: ':' :: c :: (cs ++ ',' :: '"' :: 'm' :: 'e' :: 's' :: 's' :: 'a' :: 'g' :: 'e' :: '"' :: ':' :: '"' :: (escapeStr msg.toList ++ '"' :: ['\x7d']))).length + 4 = (2 * ('\x7b' :: '"' :: 'c' :: 'o' :: 'd' :: 'e' :: '"' :: ':' :: c :: (cs ++ ',' :: '"' :: 'm' :: 'e' :: 's' :: 's' :: 'a' :: 'g' :: 'e' :: '"' :: ':' :: '"' :: (escapeStr msg.toList ++ '"' :: ['\x7d']))).length + 3) + 1 from rfl]
    exact parseValue_obj (2 * ('\x7b' :: '"' :: 'c' :: 'o' :: 'd' :: 'e' :: '"' :: ':' :: c :: (cs ++ ',' :: '"' :: 'm' :: 'e' :: 's' :: 's' :: 'a' :: 'g' :: 'e' :: '"' :: ':' :: '"' :: (escapeStr msg.toList ++ '"' :: ['\x7d']))).length + 3) ('"' :: 'c' :: 'o' :: 'd' :: 'e' :: '"' :: ':' :: c :: (cs ++ ',' :: '"' :: 'm' :: 'e' :: 's' :: 's' :: 'a' :: 'g' :: 'e' :: '"' :: ':' :: '"' :: (escapeStr msg.toList ++ '"' :: ['\x7d']))) ('c' :: 'o' :: 'd' :: 'e' :: '"' :: ':' :: c :: (cs ++ ',' :: '"' :: 'm' :: 'e' :: 's' :: 's' :: 'a' :: 'g' :: 'e' :: '"' :: ':' :: '"' :: (escapeStr msg.toList ++ '"' :: ['\x7d']))) _ _
      (skipWs_not_ws '"' _ (by decide)) hmem1
  rw [hS, decodeOne]
  rw [skipWs_not_ws '\x7b' _ (by decide)]
  split
  · rename_i heq; exact absurd heq (by simp)
  · rename_i c0 rest0 heq
    injection heq with e1 e2
    subst e1; subst e2
    rw [htop]
    simp only [List.length_nil, Nat.sub_zero, List.take_length]
    rw [show (⟨['c','o','d','e']⟩ : String) = "code" from by decide]
    rw [show (⟨['m','e','s','s','a','g','e']⟩ : String) = "message" from by decide]
    rw [show (⟨c :: cs⟩ : String) = intDec i from by rw [← hrep]; rfl]
    rfl

/-! Claim C2. -/

/-- Claim C2 counterexample: an HTTP POST whose `Content-Type` carries the
base type `application/json` with a parameter (`; charset=utf-8`) and
whose `Accept` is `application/json` is answered with 415 Unsupported
Media Type, not dispatched, because `ServeHTTP` compares the header with
the exact string `application/json`. -/
theorem ServeHTTP_charset_rejected :
    ServeHTTP { method := "POST", contentTypeHdr := "application/json; charset=utf-8",
                acceptHdr := "application/json" } = .unsupportedMediaType ∧
    ServeHTTP { method := "POST", contentTypeHdr := "application/json; charset=utf-8",
                acceptHdr := "application/json" } ≠ .dispatch := by
  decide

/-- Claim C2 (amended): the handler dispatches an incoming request exactly
when the method is POST and both the `Content-Type` and `Accept` headers
are exactly the string `application/json`; any parameters on the
`Content-Type` (such as `; charset=utf-8`) make it answer 415. -/
theorem ServeHTTP_dispatch_iff (r : HttpRequest) :
    ServeHTTP r = .dispatch ↔
      r.method = "POST" ∧ r.contentTypeHdr = "application/json" ∧
        r.acceptHdr = "application/json" := by
  unfold ServeHTTP contentType
  split_ifs with h1 h2
  · simp_all
  · constructor
    · intro h
      exact absurd h (by simp)
    · rintro ⟨-, hb, hc⟩
      exact absurd (Or.elim h2 (fun hx => hx hb) (fun hx => hx hc)) (fun f => f)
  · push_neg at h1 h2
    simp [h1, h2.1, h2.2]

/-! Claim C7. -/

/-- Claim C7 counterexample: a map parameter whose key kind is not string
(for example a `map[int]string`) does not make `WriteRequest` fail
locally: the kind switch accepts any `reflect.Map`, so the request is
built and handed to the encoder. -/
theorem WriteRequest_nonStringKeyMap_accepted :
    clientCodec.WriteRequest ⟨[]⟩ 3 "M" (some (.mapV false false)) =
      .ok (⟨[(3, "M")]⟩,
        { Version := "2.0", Method := "M", Params := some (.mapV false false), Id := some 3 }) ∧
    clientCodec.WriteRequest ⟨[]⟩ 3 "M" (some (.mapV false false)) ≠
      .error (NewError (-32603) "unsupported param type: map") := by
  have h0 : clientCodec.WriteRequest ⟨[]⟩ 3 "M" (some (.mapV false false)) =
      .ok (⟨[(3, "M")]⟩,
        { Version := "2.0", Method := "M", Params := some (.mapV false false), Id := some 3 }) := by
    rfl
  refine ⟨h0, ?_⟩
  intro h
  rw [h0] at h
  exact Except.noConfusion h

/-- Claim C7 (amended): a nil string-keyed map or nil slice (or pointer
to one) is replaced by absent params; maps of any key kind, slices,
arrays, structs and pointers to these are accepted and handed to the
encoder (the nil-replacement applies only to string-keyed maps); any
param of any other kind makes `WriteRequest` fail locally with `-32603`
and message `unsupported param type: <kind>`, building no request.  The
contract is stated as `checkParamAmended` and proved equal to the code's
switch, and a `checkParam` failure is exactly a `WriteRequest` failure. -/
theorem checkParam_kinds (c : clientCodec) (seq : Nat) (serviceMethod : String)
    (p : Option GoVal) :
    checkParam p = checkParamAmended p ∧
    ∀ e, checkParam p = .error e →
      clientCodec.WriteRequest c seq serviceMethod p = .error e := by
  constructor
  · cases p with
    | none => rfl
    | some q =>
      cases q with
      | mapV ks n => cases ks <;> cases n <;> rfl
      | sliceV n => cases n <;> rfl
      | ptrV e =>
        cases e with
        | mapV ks n => cases ks <;> cases n <;> rfl
        | sliceV n => cases n <;> rfl
        | arrayV => rfl
        | structV => rfl
        | ptrV e2 => rfl
        | boolV => rfl
        | intV => rfl
        | float64V => rfl
        | stringV => rfl
        | chanV => rfl
        | funcV => rfl
      | arrayV => rfl
      | structV => rfl
      | boolV => rfl
      | intV => rfl
      | float64V => rfl
      | stringV => rfl
      | chanV => rfl
      | funcV => rfl
  · intro e he
    unfold clientCodec.WriteRequest
    rw [he]

/-- Claim C7 witness: an `int` param makes `WriteRequest` fail locally
with the `-32603 unsupported param type: int` error. -/
theorem checkParam_kinds_witness :
    clientCodec.WriteRequest ⟨[]⟩ 1 "M" (some .intV) =
      .error (NewError (-32603) "unsupported param type: int") := by
  exact (checkParam_kinds ⟨[]⟩ 1 "M" (some .intV)).2 _ rfl

/-! Claim C4. -/

/-- Claim C4: when `WriteRequest` succeeds, the sentinel sequence
(`seqNotify` = max uint64) yields a request without an id and an
unchanged pending table, while every other sequence yields a request
whose id equals the sequence and exactly one pending entry for it
(inserted before the request is handed to the encoder), all other keys
untouched. -/
theorem WriteRequest_id_and_pending (c : clientCodec) (seq : Nat) (serviceMethod : String)
    (param : Option GoVal) (c' : clientCodec) (req : clientRequest)
    (h : clientCodec.WriteRequest c seq serviceMethod param = .ok (c', req)) :
    (seq = seqNotify → req.Id = none ∧ c' = c) ∧
    (seq ≠ seqNotify →
      req.Id = some seq ∧
      countN c'.pending seq = 1 ∧
      lookupN c'.pending seq = some serviceMethod ∧
      ∀ k, k ≠ seq → countN c'.pending k = countN c.pending k ∧
        lookupN c'.pending k = lookupN c.pending k) := by
  unfold clientCodec.WriteRequest at h
  cases hc : checkParam param with
  | error e =>
    rw [hc] at h
    exact absurd h (by simp)
  | ok p' =>
    rw [hc] at h
    by_cases hs : seq = seqNotify
    · rw [if_neg (fun hn => hn hs)] at h
      simp only [Except.ok.injEq, Prod.mk.injEq] at h
      obtain ⟨hcE, hrE⟩ := h
      refine ⟨fun _ => ⟨?_, hcE.symm⟩, fun hn => absurd hs hn⟩
      rw [← hrE]
    · rw [if_pos hs] at h
      simp only [Except.ok.injEq, Prod.mk.injEq] at h
      obtain ⟨hcE, hrE⟩ := h
      refine ⟨fun hx => absurd hx hs, fun _ => ⟨?_, ?_, ?_, ?_⟩⟩
      · rw [← hrE]
      · rw [← hcE]
        exact countN_insertN_self _ _ _
      · rw [← hcE]
        exact lookupN_insertN_self _ _ _
      · intro k hk
        rw [← hcE]
        exact ⟨countN_insertN_ne _ _ _ _ hk, lookupN_insertN_ne _ _ _ _ hk⟩

/-- Claim C4 witness: a notification write leaves the pending table empty
and carries no id; an ordinary write with sequence 2 carries id 2 and one
pending entry. -/
theorem WriteRequest_id_and_pending_witness :
    ((none : Option Nat) = none ∧ (⟨[]⟩ : clientCodec) = ⟨[]⟩) ∧
    (some 2 = some (2 : Nat)) ∧
    countN [(2, "M")] 2 = 1 ∧
    lookupN [(2, "M")] 2 = some "M" ∧
    countN ([(2, "M")] : List (Nat × String)) 7 = countN ([] : List (Nat × String)) 7 := by
  have h1 := WriteRequest_id_and_pending ⟨[]⟩ seqNotify "M" none ⟨[]⟩
    { Version := "2.0", Method := "M", Params := none, Id := none } rfl
  have h2 := WriteRequest_id_and_pending ⟨[]⟩ 2 "M" none ⟨[(2, "M")]⟩
    { Version := "2.0", Method := "M", Params := none, Id := some 2 } rfl
  have h3 := h2.2 (by decide)
  exact ⟨h1.1 rfl, h3.1, h3.2.1, h3.2.2.1, (h3.2.2.2 7 (by decide)).1⟩

/-! Claim C9. -/

/-- Claim C9: the `Error()` stringification is total; it returns exactly
the `json.Marshal` form of the error object when marshalling succeeds (in
particular the canonical
`\x7b"code":…,"message":…\x7d` object whenever `Data` is absent), and when
marshalling fails it returns the hand-constructed object carrying code
`-32001` (`intDec errServerError.code = "-32001"`).  Moreover the string
returned for a data-less error really is canonical JSON of the error
object: the decoder model parses it back to exactly the two-member
object with the error's code and message (for any code a 64-bit Go int
can hold, far below the `10 ^ 23` bound). -/
theorem Error_Error_characterization (e : Error) :
    (∀ s, marshalError e = some s → Error.Error e = s) ∧
    (marshalError e = none →
      Error.Error e =
        "\x7b\"code\":" ++ intDec errServerError.code ++ ",\"message\":" ++
          goQuote (marshalFailMessage e) ++ "\x7d") ∧
    intDec errServerError.code = "-32001" ∧
    (e.data = none →
      Error.Error e =
        "\x7b\"code\":" ++ intDec e.code ++ ",\"message\":" ++ goQuote e.message ++ "\x7d") ∧
    (e.data = none → e.code.natAbs < 10 ^ 23 →
      decodeOne (Error.Error e).toList =
        .ok (.obj [("code", .num (intDec e.code)), ("message", .str e.message)])
          (Error.Error e).toList []) := by
  have hcanon : e.data = none →
      Error.Error e =
        "\x7b\"code\":" ++ intDec e.code ++ ",\"message\":" ++ goQuote e.message ++ "\x7d" := by
    intro h
    have hm : marshalError e =
        some ("\x7b\"code\":" ++ intDec e.code ++ ",\"message\":" ++ goQuote e.message ++ "\x7d") := by
      unfold marshalError
      rw [h]
    unfold Error.Error
    rw [hm]
  refine ⟨?_, ?_, by decide, hcanon, ?_⟩
  · intro s h
    unfold Error.Error
    rw [h]
  · intro h
    unfold Error.Error
    rw [h]
  · intro h hb
    rw [hcanon h]
    exact decode_code_message e.code e.message hb

/-- Claim C9 witness: a marshalable error stringifies to its canonical
JSON, an error with unmarshalable data falls back to the `-32001`
object, and the canonical string parses back to the two-member object. -/
theorem Error_Error_characterization_witness :
    (Error.Error (NewError (-32700) "Parse error") =
      "\x7b\"code\":-32700,\"message\":\"Parse error\"\x7d") ∧
    (Error.Error { code := -32000, message := "x", data := some (.unsupported "chan int") } =
      "\x7b\"code\":-32001,\"message\":\"json: unsupported type: chan int\"\x7d") ∧
    decodeOne (Error.Error (NewError (-32700) "Parse error")).toList =
      .ok (.obj [("code", .num (intDec (-32700))), ("message", .str "Parse error")])
        (Error.Error (NewError (-32700) "Parse error")).toList [] := by
  have h1 := (Error_Error_characterization (NewError (-32700) "Parse error")).1 _ rfl
  have h2 := (Error_Error_characterization
    { code := -32000, message := "x", data := some (.unsupported "chan int") }).2.1 rfl
  have h3 := (Error_Error_characterization (NewError (-32700) "Parse error")).2.2.2.2
    rfl (by decide)
  refine ⟨?_, ?_, h3⟩
  · rw [h1]
    decide
  · rw [h2]
    decide

/-! Claim C1. -/

/-- Claim C1 counterexample: a request with the explicit member
`"id": null` has the three-byte literal `null` stored as its raw id
(`UnmarshalJSON` restores `&null` for a present-but-null id), and
`WriteResponse` then emits a response with `"id": null` — it does not
treat the request as a notification.  Only the nil pointer (no `id`
member at all) suppresses the response. -/
theorem WriteResponse_nullLiteralId_emits :
    (serverCodec.ReadRequestHeader newServerCodec
        "\x7b\"jsonrpc\":\"2.0\",\"method\":\"M\",\"id\":null\x7d".toList).st =
      { seq := 1, pending := [(1, some Json.null)] } ∧
    (serverCodec.ReadRequestHeader newServerCodec
        "\x7b\"jsonrpc\":\"2.0\",\"method\":\"M\",\"id\":null\x7d".toList).result =
      .ok (1, "M") ∧
    (serverCodec.WriteResponse { seq := 1, pending := [(1, some Json.null)] } 1 "M" "" .nilV).2 =
      .ok [.resp { Version := "2.0", Id := Json.null, Result := some Json.null, Error := none }] ∧
    (serverCodec.WriteResponse { seq := 1, pending := [(1, some Json.null)] } 1 "M" "" .nilV).2 ≠
      .ok [] := by
  have h3 : (serverCodec.WriteResponse { seq := 1, pending := [(1, some Json.null)] }
      1 "M" "" .nilV).2 =
      .ok [.resp { Version := "2.0", Id := Json.null, Result := some Json.null,
                   Error := none }] := by
    rfl
  refine ⟨rfl, rfl, h3, ?_⟩
  intro h
  rw [h3] at h
  simp at h

/-- Claim C1 (amended): outside the batch fast path, `WriteResponse`
emits nothing exactly when the stored raw id is the nil pointer — the
original request had no `id` member; when the stored raw id is any JSON
value (the literal `null` included), a response carrying that id is
emitted. -/
theorem WriteResponse_notification_iff_nil_id (c : serverCodec) (seq : Nat)
    (serviceMethod errStr : String) (x : RVal)
    (hnb : serviceMethod ≠ "JSONRPC2.Batch" ∨ ∀ rs, x ≠ .batch rs) :
    (lookupN c.pending seq = some none →
      (serverCodec.WriteResponse c seq serviceMethod errStr x).2 = .ok []) ∧
    (∀ rawId, lookupN c.pending seq = some (some rawId) →
      (serverCodec.WriteResponse c seq serviceMethod errStr x).2 =
        .ok [.resp (respFor rawId errStr x)] ∧
      (respFor rawId errStr x).Id = rawId) := by
  have hnb2 : serviceMethod = "JSONRPC2.Batch" → ∀ rs : List Json, x ≠ .batch rs := by
    intro hm rs hx
    rcases hnb with hm' | hx'
    · exact hm' hm
    · exact hx' rs hx
  clear hnb
  constructor
  · intro hl
    by_cases hm : serviceMethod = "JSONRPC2.Batch"
    · cases x with
      | batch rs => exact absurd rfl (hnb2 hm rs)
      | val j => simp [serverCodec.WriteResponse, hl, hm]
      | nilV => simp [serverCodec.WriteResponse, hl, hm]
    · simp [serverCodec.WriteResponse, hl, hm]
  · intro rawId hl
    refine ⟨?_, ?_⟩
    · have hgoal : ∀ rest : serverCodec × Except String (List SrvEmit),
        rest = serverCodec.WriteResponse c seq serviceMethod errStr x → True := fun _ _ => trivial
      clear hgoal
      by_cases hm : serviceMethod = "JSONRPC2.Batch"
      · cases x with
        | batch rs => exact absurd rfl (hnb2 hm rs)
        | val j =>
          simp only [serverCodec.WriteResponse, hl, hm, if_true, respFor]
          split_ifs <;> simp_all
        | nilV =>
          simp only [serverCodec.WriteResponse, hl, hm, if_true, respFor]
          split_ifs <;> simp_all
      · cases x with
        | batch rs =>
          simp only [serverCodec.WriteResponse, hl, hm, if_false, respFor]
          split_ifs <;> simp_all
        | val j =>
          simp only [serverCodec.WriteResponse, hl, hm, if_false, respFor]
          split_ifs <;> simp_all
        | nilV =>
          simp only [serverCodec.WriteResponse, hl, hm, if_false, respFor]
          split_ifs <;> simp_all
    · unfold respFor
      split_ifs <;> rfl

/-- Claim C1 witness: a nil stored id (request without an `id` member)
makes `WriteResponse` emit nothing, and a stored string id receives a
response carrying it. -/
theorem WriteResponse_notification_iff_nil_id_witness :
    (serverCodec.WriteResponse { seq := 1, pending := [(1, none)] } 1 "M" "" .nilV).2 =
      .ok [] ∧
    (serverCodec.WriteResponse { seq := 2, pending := [(2, some (Json.str "a"))] }
        2 "M" "" .nilV).2 = .ok [.resp (respFor (Json.str "a") "" .nilV)] ∧
    (respFor (Json.str "a") "" .nilV).Id = Json.str "a" := by
  have h1 := WriteResponse_notification_iff_nil_id
    { seq := 1, pending := [(1, none)] } 1 "M" "" .nilV (Or.inl (by decide))
  have h2 := WriteResponse_notification_iff_nil_id
    { seq := 2, pending := [(2, some (Json.str "a"))] } 2 "M" "" .nilV (Or.inl (by decide))
  exact ⟨h1.1 rfl, (h2.2 (Json.str "a") rfl).1, (h2.2 (Json.str "a") rfl).2⟩

/-! Claim C3. -/

/-- Claim C3 counterexample: an empty body and a whitespace-only body
make the decoder report `io.EOF`, and an unterminated object (`\x7b`)
makes it report `io.ErrUnexpectedEOF`; none of these is a
`*json.SyntaxError`, so `ReadRequestHeader` writes nothing at all — in
particular not the `-32700 Parse error` response the claim requires —
before returning the decode error. -/
theorem ReadRequestHeader_no_parse_error_on_eof :
    (serverCodec.ReadRequestHeader newServerCodec []).emits = [] ∧
    (serverCodec.ReadRequestHeader newServerCodec []).result = .error .eofE ∧
    (serverCodec.ReadRequestHeader newServerCodec " \t\n ".toList).emits = [] ∧
    (serverCodec.ReadRequestHeader newServerCodec " \t\n ".toList).result = .error .eofE ∧
    (serverCodec.ReadRequestHeader newServerCodec "\x7b".toList).emits = [] ∧
    (serverCodec.ReadRequestHeader newServerCodec "\x7b".toList).result = .error .unexpEofE ∧
    ([] : List SrvEmit) ≠
      [.resp { Version := "2.0", Id := Json.null, Result := none,
               Error := some (.objE errParse) }] := by
  refine ⟨rfl, rfl, rfl, rfl, rfl, rfl, ?_⟩
  intro h
  exact List.noConfusion h

/-- Claim C3 (amended): `ReadRequestHeader` writes the
`\x7b jsonrpc: "2.0", id: null, error: -32700 Parse error \x7d` response
(and then returns the error) only when the decoder reports a JSON syntax
error; on `io.EOF` (empty or whitespace-only body) and on
`io.ErrUnexpectedEOF` (truncated value such as an unterminated object) it
writes nothing and returns the decode error unchanged. -/
theorem ReadRequestHeader_parse_error_only_on_syntax (c : serverCodec) (input : List Char) :
    (decodeOne input = .eof →
      (serverCodec.ReadRequestHeader c input).emits = [] ∧
      (serverCodec.ReadRequestHeader c input).result = .error .eofE ∧
      (serverCodec.ReadRequestHeader c input).st = c) ∧
    (decodeOne input = .unexpEOF →
      (serverCodec.ReadRequestHeader c input).emits = [] ∧
      (serverCodec.ReadRequestHeader c input).result = .error .unexpEofE ∧
      (serverCodec.ReadRequestHeader c input).st = c) ∧
    (decodeOne input = .syntaxErr →
      (serverCodec.ReadRequestHeader c input).emits =
        [.resp { Version := "2.0", Id := Json.null, Result := none,
                 Error := some (.objE errParse) }] ∧
      (serverCodec.ReadRequestHeader c input).result = .error .syntaxE ∧
      (serverCodec.ReadRequestHeader c input).st = c) ∧
    (input.all isWs → decodeOne input = .eof) := by
  refine ⟨?_, ?_, ?_, ?_⟩
  · intro h
    simp [serverCodec.ReadRequestHeader, h]
  · intro h
    simp [serverCodec.ReadRequestHeader, h]
  · intro h
    simp [serverCodec.ReadRequestHeader, h]
  · intro h
    unfold decodeOne
    rw [skipWs_eq_nil_of_all_ws input h]

/-- Claim C3 witness: the body `\x7d` is a genuine syntax error, and for
it (and only such inputs) the `-32700` response is written before the
error is returned. -/
theorem ReadRequestHeader_parse_error_only_on_syntax_witness :
    (serverCodec.ReadRequestHeader newServerCodec "\x7d".toList).emits =
      [.resp { Version := "2.0", Id := Json.null, Result := none,
               Error := some (.objE errParse) }] ∧
    (serverCodec.ReadRequestHeader newServerCodec "\x7d".toList).result = .error .syntaxE ∧
    decodeOne (" \t ".toList) = .eof := by
  have h := ReadRequestHeader_parse_error_only_on_syntax newServerCodec "\x7d".toList
  have h2 := ReadRequestHeader_parse_error_only_on_syntax newServerCodec " \t ".toList
  exact ⟨(h.2.2.1 rfl).1, (h.2.2.1 rfl).2.1, h2.2.2.2 (by decide)⟩

/-! Claim C5. -/

/-- The reply array of the batch engine has one entry per
non-notification sub-request. -/
theorem batchRun_length (handle : Json → Option Json) (reqs : List Json) :
    (batchRun handle reqs).length =
      reqs.length - reqs.countP (fun r => (handle r).isNone) := by
  induction reqs with
  | nil => rfl
  | cons r rs ih =>
    have hle := List.countP_le_length (p := fun x => (handle x).isNone) (l := rs)
    have hcp := List.countP_cons (p := fun x => (handle x).isNone) (a := r) (l := rs)
    clear hcp
    cases h : handle r with
    | none =>
      have hb : batchRun handle (r :: rs) = batchRun handle rs := by
        simp [batchRun, List.filterMap_cons, h]
      have hcp1 : List.countP (fun x => (handle x).isNone) (r :: rs) =
          List.countP (fun x => (handle x).isNone) rs + 1 := by
        rw [List.countP_cons, h]
        simp
      rw [hb, ih, hcp1, List.length_cons]
      omega
    | some v =>
      have hb : batchRun handle (r :: rs) = v :: batchRun handle rs := by
        simp [batchRun, List.filterMap_cons, h]
      have hcp2 : List.countP (fun x => (handle x).isNone) (r :: rs) =
          List.countP (fun x => (handle x).isNone) rs := by
        rw [List.countP_cons, h]
        simp
      rw [hb, List.length_cons, ih, hcp2, List.length_cons]
      omega

/-- A batch consisting only of notifications produces no replies. -/
theorem batchRun_nil_of_all_none (handle : Json → Option Json) (reqs : List Json)
    (h : reqs.countP (fun r => (handle r).isNone) = reqs.length) :
    batchRun handle reqs = [] := by
  induction reqs with
  | nil => rfl
  | cons r rs ih =>
    rw [List.countP_cons, List.length_cons] at h
    have hle := List.countP_le_length (p := fun x => (handle x).isNone) (l := rs)
    cases hr : handle r with
    | none =>
      have h2 : rs.countP (fun x => (handle x).isNone) = rs.length := by
        rw [hr, show (if (none : Option Json).isNone = true then 1 else 0) = 1 from rfl] at h
        omega
      have hb : batchRun handle (r :: rs) = batchRun handle rs := by
        simp [batchRun, List.filterMap_cons, hr]
      rw [hb, ih h2]
    | some v =>
      rw [hr] at h
      simp at h
      omega

/-- Claim C5: for a batch of `N` sub-requests of which `K` are
notifications (`handle` yields `none`), the engine's reply array has
`N − K` elements, in the original order (it distributes over
concatenation and is the sub-response on singletons), and
`WriteResponse` for the synthetic batch method emits nothing when the
array is empty (`K = N`) and exactly the array otherwise. -/
theorem Batch_reply_shape (handle : Json → Option Json) (reqs pre post : List Json)
    (c : serverCodec) (seq : Nat) (b : Option Json)
    (hp : lookupN c.pending seq = some b) :
    (batchRun handle reqs).length =
      reqs.length - reqs.countP (fun r => (handle r).isNone) ∧
    (reqs = pre ++ post →
      batchRun handle reqs = batchRun handle pre ++ batchRun handle post) ∧
    (∀ r, batchRun handle [r] = (handle r).toList) ∧
    (reqs.countP (fun r => (handle r).isNone) = reqs.length →
      (serverCodec.WriteResponse c seq "JSONRPC2.Batch" ""
        (.batch (batchRun handle reqs))).2 = .ok []) ∧
    (batchRun handle reqs ≠ [] →
      (serverCodec.WriteResponse c seq "JSONRPC2.Batch" ""
        (.batch (batchRun handle reqs))).2 = .ok [.arrE (batchRun handle reqs)]) := by
  refine ⟨batchRun_length handle reqs, ?_, ?_, ?_, ?_⟩
  · intro hsplit
    rw [hsplit]
    exact List.filterMap_append pre post handle
  · intro r
    cases h : handle r <;> simp [batchRun, List.filterMap_cons, h]
  · intro hall
    rw [batchRun_nil_of_all_none handle reqs hall]
    simp [serverCodec.WriteResponse, hp]
  · intro hne
    simp [serverCodec.WriteResponse, hp, List.isEmpty_iff, hne]

/-- Claim C5 witness: a batch of three sub-requests with one notification
yields two replies in order, and `WriteResponse` emits exactly that
array. -/
theorem Batch_reply_shape_witness :
    (batchRun (fun j => match j with | .null => none | _ => some j)
        [Json.num "1", Json.null, Json.num "2"]).length = 2 ∧
    (serverCodec.WriteResponse { seq := 1, pending := [(1, some Json.null)] } 1 "JSONRPC2.Batch" ""
      (.batch (batchRun (fun j => match j with | .null => none | _ => some j)
        [Json.num "1", Json.null, Json.num "2"]))).2 =
      .ok [.arrE [Json.num "1", Json.num "2"]] := by
  have h := Batch_reply_shape (fun j => match j with | .null => none | _ => some j)
    [Json.num "1", Json.null, Json.num "2"] [] []
    { seq := 1, pending := [(1, some Json.null)] } 1 (some Json.null) rfl
  refine ⟨?_, ?_⟩
  · rw [h.1]
    rfl
  · have h5 := h.2.2.2.2 (by simp [batchRun])
    rw [h5]
    rfl

/-! Claim C10. -/

/-- Claim C10: an incoming response that passes the full structural
validation but whose id has no pending entry is reported as success:
`ReadResponseHeader` returns the response id as the sequence number and
the empty string as the service-method name (the Go map read of a missing
key yields the zero value), and the pending table is unchanged (deleting
an absent key is a no-op). -/
theorem ReadResponseHeader_unknown_id (c : clientCodec) (input : List Char) (v : Json)
    (raw rest : List Char) (id : Nat) (eo : Option Error)
    (hd : decodeOne input = .ok v raw rest)
    (hv : validateResp v = .good id eo)
    (hl : lookupN c.pending id = none) :
    clientCodec.ReadResponseHeader c input =
      (c, .okR id ""
        (match eo with
         | none => ""
         | some e => e.Error)) := by
  have hid : eraseN c.pending id = c.pending :=
    eraseN_of_countN_zero _ _ ((lookupN_eq_none_iff_countN _ _).1 hl)
  simp [clientCodec.ReadResponseHeader, hd, hv, hl, hid]
  cases eo <;> rfl

/-- Claim C10 witness: with only id 5 pending, a valid response carrying
id 9 is accepted with sequence 9 and the empty method name. -/
theorem ReadResponseHeader_unknown_id_witness :
    clientCodec.ReadResponseHeader ⟨[(5, "Svc.Sum")]⟩
        "\x7b\"jsonrpc\":\"2.0\",\"id\":9,\"result\":8\x7d".toList =
      (⟨[(5, "Svc.Sum")]⟩, .okR 9 "" "") := by
  exact ReadResponseHeader_unknown_id ⟨[(5, "Svc.Sum")]⟩
    "\x7b\"jsonrpc\":\"2.0\",\"id\":9,\"result\":8\x7d".toList
    (Json.obj [("jsonrpc", Json.str "2.0"), ("id", Json.num "9"), ("result", Json.num "8")])
    "\x7b\"jsonrpc\":\"2.0\",\"id\":9,\"result\":8\x7d".toList [] 9 none rfl rfl rfl

/-! Claim C8. -/

/-- Claim C8: `ReadResponseHeader` returns the EOF marker exactly when
the underlying decoder reports `io.EOF`, and every error it returns
otherwise is a structured `Error` that either carries code `-32603`
(decoder and validation failures) or is the response's own error object
surfaced directly for a null-id error response. -/
theorem ReadResponseHeader_error_classification (c : clientCodec) (input : List Char) :
    ((clientCodec.ReadResponseHeader c input).2 = .eofR ↔ decodeOne input = .eof) ∧
    (∀ e, (clientCodec.ReadResponseHeader c input).2 = .errR e →
      e.code = -32603 ∨
      ∃ v raw rest, decodeOne input = .ok v raw rest ∧ validateResp v = .surfaced e) := by
  cases hd : decodeOne input with
  | eof =>
    constructor
    · simp [clientCodec.ReadResponseHeader, hd]
    · intro e he
      simp [clientCodec.ReadResponseHeader, hd] at he
  | unexpEOF =>
    constructor
    · simp [clientCodec.ReadResponseHeader, hd]
    · intro e he
      simp [clientCodec.ReadResponseHeader, hd] at he
      left
      rw [← he]
      rfl
  | syntaxErr =>
    constructor
    · simp [clientCodec.ReadResponseHeader, hd]
    · intro e he
      simp [clientCodec.ReadResponseHeader, hd] at he
      left
      rw [← he]
      rfl
  | ok v raw rest =>
    cases hv : validateResp v with
    | bad =>
      constructor
      · simp [clientCodec.ReadResponseHeader, hd, hv]
      · intro e he
        simp [clientCodec.ReadResponseHeader, hd, hv] at he
        left
        rw [← he]
        rfl
    | surfaced e' =>
      constructor
      · simp [clientCodec.ReadResponseHeader, hd, hv]
      · intro e he
        simp [clientCodec.ReadResponseHeader, hd, hv] at he
        right
        exact ⟨v, raw, rest, rfl, by rw [← he]; exact hv⟩
    | good id eo =>
      constructor
      · simp [clientCodec.ReadResponseHeader, hd, hv]
      · intro e he
        simp [clientCodec.ReadResponseHeader, hd, hv] at he

/-- Claim C8 witness: the structurally invalid response `\x7b\x7d` makes
`ReadResponseHeader` return an error, and that error is classified by the
claim: it carries code `-32603`. -/
theorem ReadResponseHeader_error_classification_witness :
    (clientCodec.ReadResponseHeader ⟨[]⟩ "\x7b\x7d".toList).2 =
      .errR (NewError (-32603) "bad response: \x7b\x7d") ∧
    (NewError (-32603) "bad response: \x7b\x7d").code = -32603 := by
  have h := (ReadResponseHeader_error_classification ⟨[]⟩ "\x7b\x7d".toList).2
    (NewError (-32603) "bad response: \x7b\x7d") rfl
  refine ⟨rfl, ?_⟩
  rcases h with hc | ⟨v, raw, rest, hd, hv⟩
  · exact hc
  · rfl

/-! Claim C6. -/

/-- One `ReadRequestHeader` call either succeeds — incrementing the
sequence counter modulo `2^64`, storing the raw id under the new
sequence number and returning it — or fails and leaves the codec state
untouched. -/
theorem ReadRequestHeader_cases (c : serverCodec) (input : List Char) :
    (∃ rid method,
      (serverCodec.ReadRequestHeader c input).st =
        { seq := (c.seq + 1) % 2 ^ 64,
          pending := insertN c.pending ((c.seq + 1) % 2 ^ 64) rid } ∧
      (serverCodec.ReadRequestHeader c input).result =
        .ok ((c.seq + 1) % 2 ^ 64, method)) ∨
    ((serverCodec.ReadRequestHeader c input).st = c ∧
      ∀ p : Nat × String, (serverCodec.ReadRequestHeader c input).result ≠ .ok p) := by
  cases hd : decodeOne input with
  | eof =>
    right
    refine ⟨by simp [serverCodec.ReadRequestHeader, hd], ?_⟩
    intro p hp
    simp [serverCodec.ReadRequestHeader, hd] at hp
  | unexpEOF =>
    right
    refine ⟨by simp [serverCodec.ReadRequestHeader, hd], ?_⟩
    intro p hp
    simp [serverCodec.ReadRequestHeader, hd] at hp
  | syntaxErr =>
    right
    refine ⟨by simp [serverCodec.ReadRequestHeader, hd], ?_⟩
    intro p hp
    simp [serverCodec.ReadRequestHeader, hd] at hp
  | ok v raw rest =>
    cases hr : requestOf v with
    | error e =>
      right
      refine ⟨by simp [serverCodec.ReadRequestHeader, hd, hr], ?_⟩
      intro p hp
      simp [serverCodec.ReadRequestHeader, hd, hr] at hp
    | ok r =>
      left
      exact ⟨r.Id, r.Method, by simp [serverCodec.ReadRequestHeader, hd, hr],
        by simp [serverCodec.ReadRequestHeader, hd, hr]⟩

/-- A `WriteResponse` call whose sequence number is not pending fails
without touching the state. -/
theorem WriteResponse_missing (c : serverCodec) (seq : Nat) (m es : String) (x : RVal)
    (hl : lookupN c.pending seq = none) :
    serverCodec.WriteResponse c seq m es x =
      (c, .error "invalid sequence number in response") := by
  simp [serverCodec.WriteResponse, hl]

/-- A `WriteResponse` call whose sequence number is pending deletes that
entry. -/
theorem WriteResponse_found_st (c : serverCodec) (seq : Nat) (m es : String) (x : RVal)
    (b : Option Json) (hl : lookupN c.pending seq = some b) :
    (serverCodec.WriteResponse c seq m es x).1 =
      { c with pending := eraseN c.pending seq } := by
  by_cases hm : m = "JSONRPC2.Batch"
  · cases x with
    | batch rs =>
      simp only [serverCodec.WriteResponse, hl, hm, if_true]
      split_ifs <;> rfl
    | val j => simp [serverCodec.WriteResponse, hl, hm]
    | nilV => simp [serverCodec.WriteResponse, hl, hm]
  · simp [serverCodec.WriteResponse, hl, hm]

/-- A `WriteResponse` call whose sequence number is pending never returns
the invalid-sequence error. -/
theorem WriteResponse_not_error (c : serverCodec) (seq : Nat) (m es : String) (x : RVal)
    (b : Option Json) (hl : lookupN c.pending seq = some b) :
    ∀ msg, (serverCodec.WriteResponse c seq m es x).2 ≠ .error msg := by
  intro msg hmsg
  by_cases hm : m = "JSONRPC2.Batch"
  · cases x with
    | batch rs =>
      simp only [serverCodec.WriteResponse, hl, hm, if_true] at hmsg
      split_ifs at hmsg
    | val j =>
      cases b <;> simp [serverCodec.WriteResponse, hl, hm] at hmsg <;>
        split_ifs at hmsg
    | nilV =>
      cases b <;> simp [serverCodec.WriteResponse, hl, hm] at hmsg <;>
        split_ifs at hmsg
  · cases b <;> simp [serverCodec.WriteResponse, hl, hm] at hmsg <;>
      split_ifs at hmsg

/-- Lookup of a key with a positive entry count cannot be `none`. -/
theorem lookupN_pos_of_some {α : Type} (m : List (Nat × α)) (k : Nat) (v : α)
    (hl : lookupN m k = some v) : 0 < countN m k := by
  rcases Nat.eq_zero_or_pos (countN m k) with h0 | h
  · rw [(lookupN_eq_none_iff_countN m k).2 h0] at hl
    exact absurd hl (by simp)
  · exact h

/-- Definitional unfolding of `runEvents` on a read event. -/
theorem runEvents_read_def (c : serverCodec) (input : List Char) (evs : List SEvent) :
    runEvents c (.readE input :: evs) =
      (match (serverCodec.ReadRequestHeader c input).result with
       | .ok (s, _) =>
         ((runEvents (serverCodec.ReadRequestHeader c input).st evs).1,
          s :: (runEvents (serverCodec.ReadRequestHeader c input).st evs).2.1,
          (runEvents (serverCodec.ReadRequestHeader c input).st evs).2.2)
       | .error _ => runEvents (serverCodec.ReadRequestHeader c input).st evs) := rfl

/-- Definitional unfolding of `runEvents` on a write event. -/
theorem runEvents_write_def (c : serverCodec) (seq : Nat) (m es : String) (x : RVal)
    (evs : List SEvent) :
    runEvents c (.writeE seq m es x :: evs) =
      (match (serverCodec.WriteResponse c seq m es x).2 with
       | .ok _ =>
         ((runEvents (serverCodec.WriteResponse c seq m es x).1 evs).1,
          (runEvents (serverCodec.WriteResponse c seq m es x).1 evs).2.1,
          seq :: (runEvents (serverCodec.WriteResponse c seq m es x).1 evs).2.2)
       | .error _ => runEvents (serverCodec.WriteResponse c seq m es x).1 evs) := rfl

/-- The invariant-carrying induction behind claim C6: starting from a
codec state whose pending table is a real map with keys between 1 and the
sequence counter, running any event trace (with fewer successful reads
than would wrap the `uint64` counter) assigns exactly the consecutive
sequence numbers, and an entry count in the final pending table is 1 for
exactly the keys that were pending or assigned and not successfully
written, 0 otherwise. -/
theorem runEvents_spec (evs : List SEvent) : ∀ (c : serverCodec),
    (∀ s, countN c.pending s ≤ 1) →
    (∀ s, 0 < countN c.pending s → 1 ≤ s ∧ s ≤ c.seq) →
    c.seq + (runEvents c evs).2.1.length < 2 ^ 64 →
    (runEvents c evs).2.1 = List.range' (c.seq + 1) (runEvents c evs).2.1.length ∧
    (runEvents c evs).1.seq = c.seq + (runEvents c evs).2.1.length ∧
    ∀ s, countN (runEvents c evs).1.pending s =
      if (0 < countN c.pending s ∨ s ∈ (runEvents c evs).2.1) ∧
          s ∉ (runEvents c evs).2.2 then 1 else 0 := by
  induction evs with
  | nil =>
    intro c hcnt _ _
    refine ⟨rfl, by simp [runEvents], ?_⟩
    intro s
    have h1 := hcnt s
    by_cases hp : 0 < countN c.pending s <;> simp [runEvents, hp] <;> omega
  | cons e evs ih =>
    intro c hcnt hkeys hbound
    cases e with
    | readE input =>
      rcases ReadRequestHeader_cases c input with ⟨rid, method, hst, hres⟩ | ⟨hst, hres⟩
      · have hrun : runEvents c (.readE input :: evs) =
            ((runEvents (serverCodec.ReadRequestHeader c input).st evs).1,
             (c.seq + 1) % 2 ^ 64 ::
               (runEvents (serverCodec.ReadRequestHeader c input).st evs).2.1,
             (runEvents (serverCodec.ReadRequestHeader c input).st evs).2.2) := by
          rw [runEvents_read_def, hres]
        have hstseq : (serverCodec.ReadRequestHeader c input).st.seq =
            (c.seq + 1) % 2 ^ 64 := by
          rw [hst]
        have hstpend : (serverCodec.ReadRequestHeader c input).st.pending =
            insertN c.pending ((c.seq + 1) % 2 ^ 64) rid := by
          rw [hst]
        rw [hrun] at hbound ⊢
        simp only [List.length_cons] at hbound ⊢
        have hlt : c.seq + 1 < 2 ^ 64 := by omega
        have hmod : (c.seq + 1) % 2 ^ 64 = c.seq + 1 := Nat.mod_eq_of_lt hlt
        rw [hmod] at hstseq hstpend ⊢
        have hcnt2 : ∀ s,
            countN (serverCodec.ReadRequestHeader c input).st.pending s ≤ 1 := by
          intro s
          rw [hstpend]
          by_cases hs : s = c.seq + 1
          · subst hs
            rw [countN_insertN_self]
          · rw [countN_insertN_ne _ _ _ _ hs]
            exact hcnt s
        have hkeys2 : ∀ s,
            0 < countN (serverCodec.ReadRequestHeader c input).st.pending s →
              1 ≤ s ∧ s ≤ (serverCodec.ReadRequestHeader c input).st.seq := by
          intro s hp
          rw [hstpend] at hp
          rw [hstseq]
          by_cases hs : s = c.seq + 1
          · subst hs
            omega
          · rw [countN_insertN_ne _ _ _ _ hs] at hp
            have := hkeys s hp
            omega
        have hbound2 : (serverCodec.ReadRequestHeader c input).st.seq +
            (runEvents (serverCodec.ReadRequestHeader c input).st evs).2.1.length <
              2 ^ 64 := by
          rw [hstseq]
          omega
        obtain ⟨ha, hseq, hcount⟩ :=
          ih (serverCodec.ReadRequestHeader c input).st hcnt2 hkeys2 hbound2
        rw [hstseq] at ha hseq
        refine ⟨?_, ?_, ?_⟩
        · rw [List.range'_succ]
          exact congrArg (List.cons _) ha
        · rw [hseq]
          omega
        · intro s
          rw [hcount s, hstpend]
          refine if_congr (and_congr ?_ Iff.rfl) rfl rfl
          by_cases hs : s = c.seq + 1
          · subst hs
            rw [countN_insertN_self]
            simp
          · rw [countN_insertN_ne _ _ _ _ hs]
            simp [List.mem_cons, hs]
      · have hrun : runEvents c (.readE input :: evs) = runEvents c evs := by
          rw [runEvents_read_def]
          cases hres2 : (serverCodec.ReadRequestHeader c input).result with
          | ok p => exact absurd hres2 (hres p)
          | error err => rw [hst]
        rw [hrun] at hbound ⊢
        exact ih c hcnt hkeys hbound
    | writeE seq m es x =>
      cases hl : lookupN c.pending seq with
      | none =>
        have hw := WriteResponse_missing c seq m es x hl
        have hrun : runEvents c (.writeE seq m es x :: evs) = runEvents c evs := by
          rw [runEvents_write_def, hw]
        rw [hrun] at hbound ⊢
        exact ih c hcnt hkeys hbound
      | some b =>
        have hwst := WriteResponse_found_st c seq m es x b hl
        have hwne := WriteResponse_not_error c seq m es x b hl
        have hpos : 0 < countN c.pending seq := lookupN_pos_of_some _ _ _ hl
        have hseqle : seq ≤ c.seq := (hkeys seq hpos).2
        have hrun : runEvents c (.writeE seq m es x :: evs) =
            ((runEvents (serverCodec.WriteResponse c seq m es x).1 evs).1,
             (runEvents (serverCodec.WriteResponse c seq m es x).1 evs).2.1,
             seq ::
               (runEvents (serverCodec.WriteResponse c seq m es x).1 evs).2.2) := by
          rw [runEvents_write_def]
          cases hw2 : (serverCodec.WriteResponse c seq m es x).2 with
          | ok out => rfl
          | error msg => exact absurd hw2 (hwne msg)
        have hwseq : (serverCodec.WriteResponse c seq m es x).1.seq = c.seq := by
          rw [hwst]
        have hwpend : (serverCodec.WriteResponse c seq m es x).1.pending =
            eraseN c.pending seq := by
          rw [hwst]
        rw [hrun] at hbound ⊢
        have hcnt2 : ∀ s,
            countN (serverCodec.WriteResponse c seq m es x).1.pending s ≤ 1 := by
          intro s
          rw [hwpend]
          by_cases hs : s = seq
          · subst hs
            rw [countN_eraseN_self]
            omega
          · rw [countN_eraseN_ne _ _ _ hs]
            exact hcnt s
        have hkeys2 : ∀ s,
            0 < countN (serverCodec.WriteResponse c seq m es x).1.pending s →
              1 ≤ s ∧ s ≤ (serverCodec.WriteResponse c seq m es x).1.seq := by
          intro s hp
          rw [hwpend] at hp
          rw [hwseq]
          by_cases hs : s = seq
          · subst hs
            rw [countN_eraseN_self] at hp
            omega
          · rw [countN_eraseN_ne _ _ _ hs] at hp
            exact hkeys s hp
        have hbound2 : (serverCodec.WriteResponse c seq m es x).1.seq +
            (runEvents (serverCodec.WriteResponse c seq m es x).1 evs).2.1.length <
              2 ^ 64 := by
          rw [hwseq]
          exact hbound
        obtain ⟨ha, hseq, hcount⟩ :=
          ih (serverCodec.WriteResponse c seq m es x).1 hcnt2 hkeys2 hbound2
        rw [hwseq] at ha hseq
        refine ⟨ha, by rw [hseq], ?_⟩
        intro s
        rw [hcount s, hwpend]
        by_cases hs : s = seq
        · subst hs
          have hnotmem :
              s ∉ (runEvents (serverCodec.WriteResponse c s m es x).1 evs).2.1 := by
            rw [ha]
            intro hmem
            rw [List.mem_range'_1] at hmem
            omega
          rw [if_neg, if_neg]
          · intro hcond
            exact hcond.2 (List.mem_cons_self _ _)
          · intro hcond
            rcases hcond.1 with hc1 | hc2
            · rw [countN_eraseN_self] at hc1
              omega
            · exact hnotmem hc2
        · refine if_congr (and_congr ?_ ?_) rfl rfl
          · rw [countN_eraseN_ne _ _ _ hs]
          · simp [List.mem_cons, hs]

/-- Claim C6: on one codec instance, the sequence numbers returned by
successive successful `ReadRequestHeader` calls are (while the `uint64`
counter cannot wrap) exactly `1, 2, 3, …` — strictly increasing — and at
any point every assigned sequence number has exactly one entry in the
id-translation table until its response is successfully written, after
which it has none. -/
theorem server_seq_strictly_increasing (evs : List SEvent)
    (hbound : (runEvents newServerCodec evs).2.1.length < 2 ^ 64) :
    List.Chain' (· < ·) (runEvents newServerCodec evs).2.1 ∧
    (runEvents newServerCodec evs).2.1 =
      List.range' 1 (runEvents newServerCodec evs).2.1.length ∧
    ∀ s, countN (runEvents newServerCodec evs).1.pending s =
      if s ∈ (runEvents newServerCodec evs).2.1 ∧
          s ∉ (runEvents newServerCodec evs).2.2 then 1 else 0 := by
  obtain ⟨ha, -, hcount⟩ := runEvents_spec evs newServerCodec
    (by intro s; simp [newServerCodec, countN])
    (by intro s; simp [newServerCodec, countN])
    (by simpa [newServerCodec] using hbound)
  have ha1 : (runEvents newServerCodec evs).2.1 =
      List.range' 1 (runEvents newServerCodec evs).2.1.length := by
    simpa [newServerCodec] using ha
  refine ⟨?_, ha1, ?_⟩
  · rw [ha1]
    exact (List.pairwise_lt_range' _ _ _ (le_refl 1)).chain'
  · intro s
    rw [hcount s]
    refine if_congr (and_congr ?_ Iff.rfl) rfl rfl
    simp [newServerCodec, countN]

/-- Claim C6 witness: a concrete trace — two successful reads, a
response written for the first — yields the strictly increasing sequence
list `[1, 2]` and leaves exactly one pending entry, for sequence 2. -/
theorem server_seq_strictly_increasing_witness :
    List.Chain' (· < ·)
      (runEvents newServerCodec
        [.readE "\x7b\"jsonrpc\":\"2.0\",\"method\":\"M\"\x7d".toList,
         .readE "\x7b\"jsonrpc\":\"2.0\",\"method\":\"M\"\x7d".toList,
         .writeE 1 "M" "" .nilV]).2.1 ∧
    countN (runEvents newServerCodec
        [.readE "\x7b\"jsonrpc\":\"2.0\",\"method\":\"M\"\x7d".toList,
         .readE "\x7b\"jsonrpc\":\"2.0\",\"method\":\"M\"\x7d".toList,
         .writeE 1 "M" "" .nilV]).1.pending 1 = 0 ∧
    countN (runEvents newServerCodec
        [.readE "\x7b\"jsonrpc\":\"2.0\",\"method\":\"M\"\x7d".toList,
         .readE "\x7b\"jsonrpc\":\"2.0\",\"method\":\"M\"\x7d".toList,
         .writeE 1 "M" "" .nilV]).1.pending 2 = 1 := by
  have h := server_seq_strictly_increasing
    [.readE "\x7b\"jsonrpc\":\"2.0\",\"method\":\"M\"\x7d".toList,
     .readE "\x7b\"jsonrpc\":\"2.0\",\"method\":\"M\"\x7d".toList,
     .writeE 1 "M" "" .nilV] (by decide)
  refine ⟨h.1, ?_, ?_⟩
  · rw [h.2.2 1]
    decide
  · rw [h.2.2 2]
    decide

end Jsonrpc2
